import Mathlib

/-!
Verification of `minformer/model.py` against its natural-language specification.

We shallowly embed the model code over the real numbers.  Arrays are total
functions from (natural-number) indices to `ℝ`; every contraction (`einsum`)
is a finite sum over the explicit axis size, exactly following the shapes in
the source.  Machine-float casts (`bfloat16`/`float32` round trips) are the
identity on `ℝ`.  The one float-specific behaviour that matters for the
claims is that `float32` `exp` underflows to exactly `0` on very negative
inputs (in particular on the `-1e30` mask sentinel after max-subtraction);
we therefore parameterise every softmax by the exponential function `E` used
by the execution backend, and the cache/no-cache equivalence theorem assumes
only `E x = 0` for `x ≤ -104` (float32 `exp` underflows below `≈ -103.98`).
Instantiating `E := Real.exp` gives the exact-arithmetic reading used by the
purely structural theorems.
-/

noncomputable section

namespace Minformer

/-- Rank-3 activation array `[batch, time, feature] → ℝ`. -/
def Arr3 : Type := ℕ → ℕ → ℕ → ℝ

/-- Rank-4 head-split array `[batch, head, time, feature] → ℝ`. -/
def Arr4 : Type := ℕ → ℕ → ℕ → ℕ → ℝ

/-- Segment-id array `[batch, time] → ℤ` (`int32` in the source). -/
def Seg : Type := ℕ → ℕ → ℤ

/-- Architecture hyperparameters of `Config` that the forward pass reads
(sharding/mesh/optimizer fields are carried elsewhere or irrelevant to the
array-level semantics). -/
structure Cfg where
  d_model : ℕ
  ffw_multiplier : ℕ
  query_heads : ℕ
  key_heads : ℕ
  num_layers : ℕ
  key_dim : ℕ
  vocab_size : ℕ
  max_seq_len : ℕ
  causal : Bool
  use_attn_kernel : Bool

/-- One transformer block's parameters (class `Layer`): attention projections
`q,k,v : [d_model, heads, key_dim]`, output projection
`proj : [heads, key_dim, d_model]`, feed-forward `w1 : [d_model, ffw]`,
`w2 : [ffw, d_model]`, and the two RMS-norm gains. -/
structure LayerW where
  q : ℕ → ℕ → ℕ → ℝ
  k : ℕ → ℕ → ℕ → ℝ
  v : ℕ → ℕ → ℕ → ℝ
  proj : ℕ → ℕ → ℕ → ℝ
  w1 : ℕ → ℕ → ℝ
  w2 : ℕ → ℕ → ℝ
  gamma1 : ℕ → ℝ
  gamma2 : ℕ → ℝ

/-- The weight tree (`Weights`): the per-layer blocks (a list in the source,
embedded as an index function read at `0 ≤ idx < num_layers`), the embedding
matrix `[vocab, d_model]` and the un-embedding matrix `[d_model, vocab]`. -/
structure WeightsM where
  layers : ℕ → LayerW
  embedding : ℕ → ℕ → ℝ
  vocab_proj : ℕ → ℕ → ℝ

/-- `KVCache`: per-layer key/value buffers
`[batch, key_heads, max_seq_len, key_dim]` (a list over layers in the source)
plus the per-row valid-length counters (`int32`, always non-negative, hence
`ℕ`). -/
structure KVCacheM where
  k : ℕ → Arr4
  v : ℕ → Arr4
  lengths : ℕ → ℕ

/-- `KVCache.init`: zero buffers, zero lengths. -/
def KVCacheM.init : KVCacheM :=
  ⟨fun _ _ _ _ _ => 0, fun _ _ _ _ _ => 0, fun _ => 0⟩

/-- `rms_norm(x, gamma) = gamma * x / sqrt(mean(x², axis=-1) + 1e-6)` where the
feature axis has size `D`. -/
def rms_norm (D : ℕ) (gamma : ℕ → ℝ) (x : Arr3) : Arr3 :=
  fun b t d =>
    gamma d * x b t d /
      Real.sqrt ((∑ i ∈ Finset.range D, (x b t i) ^ 2) / (D : ℝ) + 1e-6)

/-- `jax.nn.gelu` (default tanh approximation):
`0.5 * x * (1 + tanh(sqrt(2/π) * (x + 0.044715 x³)))`. -/
def gelu (x : ℝ) : ℝ :=
  0.5 * x * (1 + Real.tanh (Real.sqrt (2 / Real.pi) * (x + 0.044715 * x ^ 3)))

/-- The timescales of `_generate_fixed_pos_embedding`: `fraction = 2j/features`
and `timescale_j = min_timescale * (max_timescale/min_timescale)^fraction`. -/
def timescale (features : ℕ) (min_timescale max_timescale : ℝ) (j : ℕ) : ℝ :=
  min_timescale * (max_timescale / min_timescale) ^ (((2 * j : ℕ) : ℝ) / (features : ℝ))

/-- `sinusoid_inp[i, j] = i * (1 / timescale_j)` (the high-precision einsum of
positions with rotational frequencies). -/
def sinusoid_inp (features : ℕ) (min_timescale max_timescale : ℝ) (i j : ℕ) : ℝ :=
  (i : ℝ) * (1 / timescale features min_timescale max_timescale j)

/-- `_generate_fixed_pos_embedding(features, length)` returns
`(sin(sinusoid_inp), cos(sinusoid_inp))`, tables of shape
`[length, features // 2]`; entries are total functions and `length` only
records the table's time extent (used by the slicing helpers). -/
def _generate_fixed_pos_embedding (features _length : ℕ)
    (min_timescale max_timescale : ℝ) :
    (ℕ → ℕ → ℝ) × (ℕ → ℕ → ℝ) :=
  (fun i j => Real.sin (sinusoid_inp features min_timescale max_timescale i j),
   fun i j => Real.cos (sinusoid_inp features min_timescale max_timescale i j))

/-- `apply_rotary_embedding(x, sin, cos)` with `dHalf` the half width of the
last axis (`jnp.split(x, 2, axis=-1)`): the output concatenates
`x1*cos - x2*sin` and `x2*cos + x1*sin`.  `sin`/`cos` are `[B, T, dHalf]`
tables broadcast over the head axis. -/
def apply_rotary_embedding (dHalf : ℕ) (x : Arr4) (sin cos : Arr3) : Arr4 :=
  fun b h t d =>
    if d < dHalf then
      x b h t d * cos b t d - x b h t (dHalf + d) * sin b t d
    else
      x b h t (d - dHalf) * sin b t (d - dHalf) +
        x b h t d * cos b t (d - dHalf)

/-- `slices_at(table, indices, length)`: per-batch-row
`jax.lax.dynamic_slice_in_dim(table, indices[b], sliceLen)` on a table whose
time axis has size `tableLen`; the start index is clamped into
`[0, tableLen - sliceLen]` (dynamic-slice semantics — the overflow "shunts
left" instead of erroring). -/
def slices_at (tableLen sliceLen : ℕ) (table : ℕ → ℕ → ℝ) (indices : ℕ → ℕ) :
    Arr3 :=
  fun b t j => table (min (indices b) (tableLen - sliceLen) + t) j

/-- `jnp.max` of `f` over `[0, n)` (an error on an empty axis in the source;
we return `f 0` at `n = 0`, a value never used). -/
def rowMax (f : ℕ → ℝ) : ℕ → ℝ
  | 0 => f 0
  | 1 => f 0
  | n + 2 => max (rowMax f (n + 1)) (f (n + 1))

/-- `jax.nn.softmax` over an axis of size `n`, with its internal
max-subtraction, parameterised by the backend exponential `E`. -/
def softmaxE (E : ℝ → ℝ) (n : ℕ) (f : ℕ → ℝ) : ℕ → ℝ :=
  fun T => E (f T - rowMax f n) / ∑ S ∈ Finset.range n, E (f S - rowMax f n)

/-- The scaled attention scores
`qk[b,h,t,T] = (Σ_d q[b,h,t,d] * k[b,h,T,d]) * key_dim ** -0.5`. -/
def attnScores (Dk : ℕ) (q k : Arr4) : Arr4 :=
  fun b h t T =>
    (∑ d ∈ Finset.range Dk, q b h t d * k b h T d) * (Dk : ℝ) ^ (-(0.5) : ℝ)

/-- `make_attention_mask`: segment equality between query and key positions,
conjoined (when `causal`) with `q_offset[b] + t ≥ T`.  The head axis is
broadcast (the entry ignores `h`). -/
def make_attention_mask (qSeg kSeg : Seg) (qOffset : ℕ → ℕ) (causal : Bool) :
    ℕ → ℕ → ℕ → ℕ → Bool :=
  fun b _h t T =>
    decide (qSeg b t = kSeg b T) &&
      (if causal then decide (T ≤ qOffset b + t) else true)

/-- The reference `attention`: masked logits are the scores where the mask
holds and the `-1e30` sentinel elsewhere; softmax (backend exponential `E`,
`float32` accumulation modelled as exact) and contraction with `v` over the
`kLen` key positions.  The source also computes `max_score = jnp.max(qk)` and
discards it (dead code); it does not influence the value. -/
def attention (E : ℝ → ℝ) (Dk kLen : ℕ) (causal : Bool) (q k v : Arr4)
    (qSeg kSeg : Seg) (qOffset : ℕ → ℕ) : Arr4 :=
  fun b h t d =>
    ∑ T ∈ Finset.range kLen,
      softmaxE E kLen
        (fun S =>
          if make_attention_mask qSeg kSeg qOffset causal b h t S then
            attnScores Dk q k b h t S
          else (-1e30)) T * v b h T d

/-- The count `jnp.sum(segment_ids != 0, axis=-1)` of non-padding tokens in a
chunk of length `m`, per batch row (`incremental_positions` in the source). -/
def incCount (m : ℕ) (seg : Seg) (b : ℕ) : ℕ :=
  ∑ t ∈ Finset.range m, if seg b t ≠ 0 then 1 else 0

/-- The cached-path key segment ids:
`k_segment_ids[b,T] = 1` iff `T < lengths[b] + incremental_positions[b]`. -/
def kSegsCache (m : ℕ) (seg : Seg) (lengths : ℕ → ℕ) : Seg :=
  fun b T => if T < lengths b + incCount m seg b then 1 else 0

/-- The cached-path query segment ids: the chunk's segment ids collapsed to a
binary valid/padding flag, `jnp.where(segment_ids != 0, 1, 0)`. -/
def qSegsCache (seg : Seg) : Seg :=
  fun b t => if seg b t ≠ 0 then 1 else 0

/-- Per-row `jax.lax.dynamic_update_slice_in_dim` on the time axis of a cache
buffer: for each row `b` the chunk (`m` steps) is written starting at
`lengths[b]`, with the start clamped into `[0, Tmax - m]` (dynamic-update
semantics: an overflowing start "shunts left" instead of erroring). -/
def updateCacheArr (Tmax m : ℕ) (original update : Arr4) (lengths : ℕ → ℕ) :
    Arr4 :=
  fun b h t d =>
    if min (lengths b) (Tmax - m) ≤ t ∧ t < min (lengths b) (Tmax - m) + m then
      update b h (t - min (lengths b) (Tmax - m)) d
    else original b h t d

/-- Multiplying a cache buffer by the key-segment mask
(`k * k_segment_ids[:, None, :, None]`), zeroing all not-attend-able
timesteps. -/
def maskCacheArr (arr : Arr4) (kSeg : Seg) : Arr4 :=
  fun b h t d => arr b h t d * ((kSeg b t : ℤ) : ℝ)

/-- Pre-attention pipeline of `forward_layer`: `attn_in = rms_norm(x, gamma1)`
followed by the query projection `einsum("btd,dhq->bhtq")` and rotary
embedding. -/
def layerQ (cfg : Cfg) (L : LayerW) (x : Arr3) (sin cos : Arr3) : Arr4 :=
  apply_rotary_embedding (cfg.key_dim / 2)
    (fun b h t dq =>
      ∑ d ∈ Finset.range cfg.d_model, rms_norm cfg.d_model L.gamma1 x b t d * L.q d h dq)
    sin cos

/-- Key projection `einsum("btd,dhk->bhtk")` of the normalized input, with
rotary embedding. -/
def layerK (cfg : Cfg) (L : LayerW) (x : Arr3) (sin cos : Arr3) : Arr4 :=
  apply_rotary_embedding (cfg.key_dim / 2)
    (fun b h t dk =>
      ∑ d ∈ Finset.range cfg.d_model, rms_norm cfg.d_model L.gamma1 x b t d * L.k d h dk)
    sin cos

/-- Value projection `einsum("btd,dhv->bhtv")` of the normalized input (no
rotary embedding on values). -/
def layerV (cfg : Cfg) (L : LayerW) (x : Arr3) : Arr4 :=
  fun b h t dv =>
    ∑ d ∈ Finset.range cfg.d_model, rms_norm cfg.d_model L.gamma1 x b t d * L.v d h dv

/-- Output projection `einsum("bhtq,hqd->btd")` of the attention output,
added to the residual stream. -/
def attnResidual (cfg : Cfg) (L : LayerW) (x : Arr3) (attn_out4 : Arr4) : Arr3 :=
  fun b t d =>
    x b t d +
      ∑ h ∈ Finset.range cfg.query_heads, ∑ dq ∈ Finset.range cfg.key_dim,
        attn_out4 b h t dq * L.proj h dq d

/-- Post-attention pipeline of `forward_layer`: output projection plus
residual (`attnResidual`), second RMS norm, GELU feed-forward and the second
residual add. -/
def postAttn (cfg : Cfg) (L : LayerW) (x : Arr3) (attn_out4 : Arr4) : Arr3 :=
  fun b t d =>
    attnResidual cfg L x attn_out4 b t d +
      ∑ f ∈ Finset.range (cfg.d_model * cfg.ffw_multiplier),
        gelu (∑ i ∈ Finset.range cfg.d_model,
          rms_norm cfg.d_model L.gamma2 (attnResidual cfg L x attn_out4) b t i *
            L.w1 i f) * L.w2 f d

/-- `forward_layer` for a chunk of length `m`.  Computes the rotary-embedded
projections; with a cache, dynamically updates the per-row buffers at the
prior lengths, rebuilds the key-segment mask, zeroes the masked positions and
uses the prior lengths as query offset; with `use_attn_kernel` it raises
`ValueError("Kernel is only for training.")` whenever a cache is supplied and
otherwise calls the fused kernel (`kernelAttn`, an external collaborator);
the reference path calls `attention`.  Returns `(x, k, v)`. -/
def forward_layer (E : ℝ → ℝ) (kernelAttn : Arr4 → Arr4 → Arr4 → Seg → Seg → Arr4)
    (cfg : Cfg) (m : ℕ) (x : Arr3) (segment_ids : Seg) (L : LayerW)
    (sin cos : Arr3) (idx : ℕ) (cache : Option KVCacheM) :
    Except String (Arr3 × Arr4 × Arr4) :=
  let q := layerQ cfg L x sin cos
  let k := layerK cfg L x sin cos
  let v := layerV cfg L x
  match cache with
  | some c =>
      let k1 := updateCacheArr cfg.max_seq_len m (c.k idx) k c.lengths
      let v1 := updateCacheArr cfg.max_seq_len m (c.v idx) v c.lengths
      let kSeg := kSegsCache m segment_ids c.lengths
      let k2 := maskCacheArr k1 kSeg
      let v2 := maskCacheArr v1 kSeg
      if cfg.use_attn_kernel then Except.error "Kernel is only for training."
      else
        Except.ok
          (postAttn cfg L x
            (attention E cfg.key_dim cfg.max_seq_len cfg.causal q k2 v2
              (qSegsCache segment_ids) kSeg c.lengths),
           k2, v2)
  | none =>
      if cfg.use_attn_kernel then
        Except.ok (postAttn cfg L x (kernelAttn q k v segment_ids segment_ids), k, v)
      else
        Except.ok
          (postAttn cfg L x
            (attention E cfg.key_dim m cfg.causal q k v segment_ids segment_ids
              (fun _ => 0)),
           k, v)

/-- Writing a layer's updated key/value buffers back into the cache
(`cache.k[idx] = k; cache.v[idx] = v` in the layer loop of `forward`);
lengths are untouched here. -/
def writeCache (c : KVCacheM) (idx : ℕ) (k v : Arr4) : KVCacheM :=
  ⟨fun j => if j = idx then k else c.k j,
   fun j => if j = idx then v else c.v j,
   c.lengths⟩

/-- The layer loop of `forward`: apply layers `0, …, n-1` in order, threading
the residual stream and writing each layer's key/value buffers back into the
cache when one is present. -/
def forwardLayers (E : ℝ → ℝ) (kernelAttn : Arr4 → Arr4 → Arr4 → Seg → Seg → Arr4)
    (cfg : Cfg) (m : ℕ) (segment_ids : Seg) (sin cos : Arr3) (W : WeightsM) :
    ℕ → Arr3 → Option KVCacheM → Except String (Arr3 × Option KVCacheM)
  | 0, x, cache => Except.ok (x, cache)
  | n + 1, x, cache =>
      (forwardLayers E kernelAttn cfg m segment_ids sin cos W n x cache).bind
        (fun s =>
          (forward_layer E kernelAttn cfg m s.1 segment_ids (W.layers n) sin cos n
              s.2).map
            (fun r => (r.1, s.2.map (fun c => writeCache c n r.2.1 r.2.2))))

/-- Token embedding `x = weights.embedding[x, :]`. -/
def embedTokens (W : WeightsM) (tokens : ℕ → ℕ → ℕ) : Arr3 :=
  fun b t d => W.embedding (tokens b t) d

/-- The rotary-table start indices used by `forward`: the cache lengths during
cached decoding, zero otherwise. -/
def startIndices (cache : Option KVCacheM) : ℕ → ℕ :=
  fun b => match cache with
    | some c => c.lengths b
    | none => 0

/-- Un-embedding `logits = einsum("btd,dv->btv", x, vocab_proj)`. -/
def vocabLogits (cfg : Cfg) (W : WeightsM) (x : Arr3) : Arr3 :=
  fun b t v => ∑ d ∈ Finset.range cfg.d_model, x b t d * W.vocab_proj d v

/-- The rotary sine table of `forward`, generated with
`(cfg.key_dim, cfg.max_seq_len)` and default timescales, sliced per row at
the cache lengths (or zero without a cache). -/
def slicedSin (cfg : Cfg) (m : ℕ) (cache : Option KVCacheM) : Arr3 :=
  slices_at cfg.max_seq_len m
    (_generate_fixed_pos_embedding cfg.key_dim cfg.max_seq_len 1.0 10000.0).1
    (startIndices cache)

/-- The rotary cosine table of `forward`, sliced per row. -/
def slicedCos (cfg : Cfg) (m : ℕ) (cache : Option KVCacheM) : Arr3 :=
  slices_at cfg.max_seq_len m
    (_generate_fixed_pos_embedding cfg.key_dim cfg.max_seq_len 1.0 10000.0).2
    (startIndices cache)

/-- Full `forward` on a chunk of length `m`: embed tokens, slice the rotary
tables at each row's cache length (or zero), run the layer stack, project to
vocabulary logits and — when a cache is given — advance its lengths once, at
the end, by the per-row count of non-padding tokens. -/
def forward (E : ℝ → ℝ) (kernelAttn : Arr4 → Arr4 → Arr4 → Seg → Seg → Arr4)
    (cfg : Cfg) (m : ℕ) (tokens : ℕ → ℕ → ℕ) (segment_ids : Seg) (W : WeightsM)
    (cache : Option KVCacheM) :
    Except String (Arr3 × Option KVCacheM) :=
  (forwardLayers E kernelAttn cfg m segment_ids (slicedSin cfg m cache)
      (slicedCos cfg m cache) W cfg.num_layers (embedTokens W tokens)
      cache).map
    (fun s =>
      (vocabLogits cfg W s.1,
       s.2.map (fun c =>
         ⟨c.k, c.v, fun b => c.lengths b + incCount m segment_ids b⟩)))

/-- `get_lr_with_cosine_decay_and_warmup`: linear warmup to `max_lr` over
`warmup_steps`, then cosine decay from `max_lr` to `min_lr` over the
remaining steps. -/
def get_lr_with_cosine_decay_and_warmup (step total_steps : ℕ)
    (max_lr min_lr : ℝ) (warmup_steps : ℕ) : ℝ :=
  if step < warmup_steps then
    max_lr * ((step : ℝ) / (warmup_steps : ℝ))
  else
    min_lr + 0.5 * (max_lr - min_lr) *
      (1 + Real.cos (Real.pi *
        (((step : ℝ) - (warmup_steps : ℝ)) / ((total_steps : ℝ) - (warmup_steps : ℝ)))))

/-- `jnp.argmax` over `[0, n)`: index of the maximum value, first occurrence
on ties (folded left to right). -/
def jnpArgmax (f : ℕ → ℝ) : ℕ → ℕ
  | 0 => 0
  | 1 => 0
  | n + 2 => if f (n + 1) > f (jnpArgmax f (n + 1)) then n + 1 else jnpArgmax f (n + 1)

/-- `prepare_chunk(chunk, pad_to, pad_id)` for a row of original length
`len`: right-pad the tokens with zeros to `pad_to` and derive segment ids by
`jnp.where(chunk != pad_id, 1, 0)` — every token equal to `pad_id` (including
a genuine vocabulary token `0`) gets segment id `0`. -/
def prepare_chunk (chunk : ℕ → ℕ) (len _pad_to pad_id : ℕ) :
    (ℕ → ℕ → ℕ) × Seg :=
  let padded : ℕ → ℕ → ℕ := fun _b t => if t < len then chunk t else 0
  (padded, fun b t => if padded b t ≠ pad_id then 1 else 0)

/-- `sample_next_token`: greedy arg-max over the vocabulary axis of size `V`,
or `jax.random.categorical` with the fixed key `jax.random.PRNGKey(0)`
applied to `softmax(logits / temperature)`.  The external sampler is the
pair `(key, x) ↦ categorical key x`; the fixed seed means the same sampler
entry `categorical 0` is used on every call. -/
def sample_next_token (E : ℝ → ℝ) (V : ℕ)
    (categorical : ℕ → (ℕ → ℝ) → ℕ) (logits : ℕ → ℝ) (temperature : ℝ)
    (greedy : Bool) : ℕ :=
  if greedy then jnpArgmax logits V
  else categorical 0 (softmaxE E V (fun v => logits v / temperature))

/-- The sampling distribution of `jax.random.categorical(key, x)` as
documented by JAX: `x` is a vector of *unnormalized log-probabilities* and
index `T` is drawn with probability `softmax(x)[T]` (exact-arithmetic
exponential). -/
def categoricalDist (V : ℕ) (x : ℕ → ℝ) : ℕ → ℝ :=
  softmaxE Real.exp V x

/-- The distribution of the non-greedy branch of `sample_next_token` induced
by the categorical sampler: the code passes `softmax(logits/temperature)` to
`jax.random.categorical`, so the drawn index follows
`softmax(softmax(logits/temperature))`. -/
def sampleDist (V : ℕ) (logits : ℕ → ℝ) (temperature : ℝ) : ℕ → ℝ :=
  categoricalDist V (softmaxE Real.exp V (fun v => logits v / temperature))

/-- The distribution the specification describes for the non-greedy branch:
temperature-scaled softmax sampling of the logits, i.e. the drawn index
follows `softmax(logits/temperature)` itself. -/
def specSampleDist (V : ℕ) (logits : ℕ → ℝ) (temperature : ℝ) : ℕ → ℝ :=
  softmaxE Real.exp V (fun v => logits v / temperature)

/-- All-ones segment ids (no padding). -/
def onesSeg : Seg := fun _ _ => 1

/-- Reads the result of a successful cached `forward` call (the reference
path never fails; the default is never reached in the verified scenarios). -/
def getOkCache (e : Except String (Arr3 × Option KVCacheM)) : Arr3 × KVCacheM :=
  match e with
  | Except.ok (l, some c) => (l, c)
  | _ => (fun _ _ _ => 0, KVCacheM.init)

/-- Reads the logits of a successful uncached `forward` call. -/
def getOkNoCache (e : Except String (Arr3 × Option KVCacheM)) : Arr3 :=
  match e with
  | Except.ok (l, _) => l
  | _ => fun _ _ _ => 0

/-- Scenario (C1), prompt ingestion: one cached `forward` call over the first
`L` tokens of the stream `toks`, all segment ids `1`, starting from the zero
cache. -/
def promptCall (E : ℝ → ℝ) (kernelAttn : Arr4 → Arr4 → Arr4 → Seg → Seg → Arr4)
    (cfg : Cfg) (W : WeightsM) (toks : ℕ → ℕ → ℕ) (L : ℕ) : Arr3 × KVCacheM :=
  getOkCache (forward E kernelAttn cfg L toks onesSeg W (some KVCacheM.init))

/-- Scenario (C1), incremental decoding: the `(logits, cache)` state after
the prompt call and `i` single-token decode calls; decode call `i + 1` feeds
`toks b (L + i)` as a chunk of length 1 with segment id 1. -/
def decodeState (E : ℝ → ℝ) (kernelAttn : Arr4 → Arr4 → Arr4 → Seg → Seg → Arr4)
    (cfg : Cfg) (W : WeightsM) (toks : ℕ → ℕ → ℕ) (L : ℕ) :
    ℕ → Arr3 × KVCacheM
  | 0 => promptCall E kernelAttn cfg W toks L
  | i + 1 =>
      getOkCache (forward E kernelAttn cfg 1 (fun b _ => toks b (L + i)) onesSeg
        W (some (decodeState E kernelAttn cfg W toks L i).2))

/-- Scenario (C1), the reference run: a single uncached `forward` call over
the whole length-`n` sequence, all segment ids `1`. -/
def fullCall (E : ℝ → ℝ) (kernelAttn : Arr4 → Arr4 → Arr4 → Seg → Seg → Arr4)
    (cfg : Cfg) (W : WeightsM) (toks : ℕ → ℕ → ℕ) (n : ℕ) : Arr3 :=
  getOkNoCache (forward E kernelAttn cfg n toks onesSeg W none)

/-- The residual stream of the uncached reference run after `l` layers. -/
def fullStream (E : ℝ → ℝ) (kernelAttn : Arr4 → Arr4 → Arr4 → Seg → Seg → Arr4)
    (cfg : Cfg) (W : WeightsM) (toks : ℕ → ℕ → ℕ) (n l : ℕ) : Arr3 :=
  getOkNoCache (forwardLayers E kernelAttn cfg n onesSeg (slicedSin cfg n none)
    (slicedCos cfg n none) W l (embedTokens W toks) none)

/-- The rotary-embedded queries of layer `l` in the uncached reference run. -/
def fullQ (E : ℝ → ℝ) (kernelAttn : Arr4 → Arr4 → Arr4 → Seg → Seg → Arr4)
    (cfg : Cfg) (W : WeightsM) (toks : ℕ → ℕ → ℕ) (n l : ℕ) : Arr4 :=
  layerQ cfg (W.layers l) (fullStream E kernelAttn cfg W toks n l)
    (slicedSin cfg n none) (slicedCos cfg n none)

/-- The rotary-embedded keys of layer `l` in the uncached reference run. -/
def fullK (E : ℝ → ℝ) (kernelAttn : Arr4 → Arr4 → Arr4 → Seg → Seg → Arr4)
    (cfg : Cfg) (W : WeightsM) (toks : ℕ → ℕ → ℕ) (n l : ℕ) : Arr4 :=
  layerK cfg (W.layers l) (fullStream E kernelAttn cfg W toks n l)
    (slicedSin cfg n none) (slicedCos cfg n none)

/-- The values of layer `l` in the uncached reference run. -/
def fullV (E : ℝ → ℝ) (kernelAttn : Arr4 → Arr4 → Arr4 → Seg → Seg → Arr4)
    (cfg : Cfg) (W : WeightsM) (toks : ℕ → ℕ → ℕ) (n l : ℕ) : Arr4 :=
  layerV cfg (W.layers l) (fullStream E kernelAttn cfg W toks n l)

/-- Invariant tying a decoding cache to the uncached reference run: every
row's length equals `bound`, every layer's buffers hold the reference keys
and values strictly below `bound` and zero at and above it. -/
def CacheInv (E : ℝ → ℝ) (kernelAttn : Arr4 → Arr4 → Arr4 → Seg → Seg → Arr4)
    (cfg : Cfg) (W : WeightsM) (toks : ℕ → ℕ → ℕ) (n : ℕ) (c : KVCacheM)
    (bound : ℕ) : Prop :=
  (∀ b, c.lengths b = bound) ∧
  ∀ l, l < cfg.num_layers → ∀ b h T dk,
    (T < bound →
      c.k l b h T dk = fullK E kernelAttn cfg W toks n l b h T dk ∧
      c.v l b h T dk = fullV E kernelAttn cfg W toks n l b h T dk) ∧
    (bound ≤ T → c.k l b h T dk = 0 ∧ c.v l b h T dk = 0)

/-- The diagonal attention scores of the uncached reference run are bounded
below by `-1e29` (any finite-weight model satisfies this by astronomical
margin; it rules out degenerate rows whose maximal masked score would not
make the `-1e30` sentinel underflow). -/
def ScoresBounded (E : ℝ → ℝ)
    (kernelAttn : Arr4 → Arr4 → Arr4 → Seg → Seg → Arr4) (cfg : Cfg)
    (W : WeightsM) (toks : ℕ → ℕ → ℕ) (n : ℕ) : Prop :=
  ∀ l h a b, l < cfg.num_layers → h < cfg.query_heads → a < n →
    (-1e29 : ℝ) ≤ attnScores cfg.key_dim (fullQ E kernelAttn cfg W toks n l)
      (fullK E kernelAttn cfg W toks n l) b h a a

/-- Concrete fixture: a layer with all-zero parameters (used to instantiate
closed witnesses). -/
def zeroLayer : LayerW :=
  ⟨fun _ _ _ => 0, fun _ _ _ => 0, fun _ _ _ => 0, fun _ _ _ => 0,
   fun _ _ => 0, fun _ _ => 0, fun _ => 0, fun _ => 0⟩

/-- Concrete fixture: all-zero weights. -/
def zeroWeights : WeightsM :=
  ⟨fun _ => zeroLayer, fun _ _ => 0, fun _ _ => 0⟩

/-- Concrete fixture: a trivial external kernel. -/
def zeroKernel : Arr4 → Arr4 → Arr4 → Seg → Seg → Arr4 :=
  fun _ _ _ _ _ => fun _ _ _ _ => 0

/-- Concrete fixture: a one-layer reference-path (kernel-off) causal config
with `d_model = 1`, `key_dim = 2`, `max_seq_len = 2`. -/
def cfgRef : Cfg := ⟨1, 1, 1, 1, 1, 2, 1, 2, true, false⟩

/-- The all-zero rank-3 array. -/
def zeroArr3 : Arr3 := fun _ _ _ => 0

/-- A model of `float32` `exp`: it underflows to exactly `0` below `-104`
(the true cutoff is `≈ -103.98`, below which even the smallest subnormal is
lost) and is the exact exponential elsewhere.  Used to instantiate the
backend exponential in concrete C1 scenarios. -/
def exp32 (x : ℝ) : ℝ := if x ≤ -104 then 0 else Real.exp x

/- ===================== theorems ===================== -/

/-- C6: the rotary table generator returns sin and cos tables whose `[i, j]`
entry is `sin` (resp. `cos`) of `i` divided by the `j`-th timescale, the
timescales forming a geometric progression starting at `1.0` whose next
element after the last feature pair is `10000.0`. -/
theorem c6_rotary_tables (features length : ℕ) (hf : 0 < features)
    (hev : 2 ∣ features) :
    (∀ i j,
      (_generate_fixed_pos_embedding features length 1.0 10000.0).1 i j =
        Real.sin ((i : ℝ) / timescale features 1.0 10000.0 j) ∧
      (_generate_fixed_pos_embedding features length 1.0 10000.0).2 i j =
        Real.cos ((i : ℝ) / timescale features 1.0 10000.0 j)) ∧
    timescale features 1.0 10000.0 0 = 1 ∧
    (∀ j, timescale features 1.0 10000.0 (j + 1) =
        timescale features 1.0 10000.0 j * (10000 : ℝ) ^ ((2 : ℝ) / (features : ℝ))) ∧
    timescale features 1.0 10000.0 (features / 2) = 10000 := by
  refine ⟨fun i j => ⟨?_, ?_⟩, ?_, fun j => ?_, ?_⟩
  · simp [_generate_fixed_pos_embedding, sinusoid_inp, mul_one_div, div_eq_mul_inv]
  · simp [_generate_fixed_pos_embedding, sinusoid_inp, mul_one_div, div_eq_mul_inv]
  · norm_num [timescale]
  · have h2 : ((2 * (j + 1) : ℕ) : ℝ) / (features : ℝ) =
        ((2 * j : ℕ) : ℝ) / (features : ℝ) + (2 : ℝ) / (features : ℝ) := by
      push_cast; ring
    simp only [timescale, h2]
    rw [Real.rpow_add (by norm_num)]
    norm_num
  · have h1 : (2 * (features / 2) : ℕ) = features := Nat.mul_div_cancel' hev
    have h2 : (features : ℝ) ≠ 0 := Nat.cast_ne_zero.mpr hf.ne'
    simp only [timescale, h1, div_self h2]
    norm_num

/-- Witness for C6 at `features = 2`, `length = 3`. -/
theorem c6_rotary_tables_witness :
    0 < 2 ∧ 2 ∣ 2 ∧
    ((∀ i j,
      (_generate_fixed_pos_embedding 2 3 1.0 10000.0).1 i j =
        Real.sin ((i : ℝ) / timescale 2 1.0 10000.0 j) ∧
      (_generate_fixed_pos_embedding 2 3 1.0 10000.0).2 i j =
        Real.cos ((i : ℝ) / timescale 2 1.0 10000.0 j)) ∧
    timescale 2 1.0 10000.0 0 = 1 ∧
    (∀ j, timescale 2 1.0 10000.0 (j + 1) =
        timescale 2 1.0 10000.0 j * (10000 : ℝ) ^ ((2 : ℝ) / (2 : ℕ))) ∧
    timescale 2 1.0 10000.0 (2 / 2) = 10000) :=
  ⟨by norm_num, by norm_num, c6_rotary_tables 2 3 (by norm_num) (by norm_num)⟩

/-- C7: the learning-rate schedule is `0` at step `0`, `max_lr` at
`warmup_steps`, `min_lr` at `total_steps`, monotonically increasing on the
warmup interval and monotonically decreasing afterwards. -/
theorem c7_lr_schedule (total_steps warmup_steps : ℕ) (max_lr min_lr : ℝ)
    (hw : 0 < warmup_steps) (hwt : warmup_steps < total_steps)
    (hmin : 0 ≤ min_lr) (hmm : min_lr ≤ max_lr) :
    get_lr_with_cosine_decay_and_warmup 0 total_steps max_lr min_lr warmup_steps = 0 ∧
    get_lr_with_cosine_decay_and_warmup warmup_steps total_steps max_lr min_lr
      warmup_steps = max_lr ∧
    get_lr_with_cosine_decay_and_warmup total_steps total_steps max_lr min_lr
      warmup_steps = min_lr ∧
    (∀ s s', s ≤ s' → s' ≤ warmup_steps →
      get_lr_with_cosine_decay_and_warmup s total_steps max_lr min_lr warmup_steps ≤
        get_lr_with_cosine_decay_and_warmup s' total_steps max_lr min_lr warmup_steps) ∧
    (∀ s s', warmup_steps ≤ s → s ≤ s' → s' ≤ total_steps →
      get_lr_with_cosine_decay_and_warmup s' total_steps max_lr min_lr warmup_steps ≤
        get_lr_with_cosine_decay_and_warmup s total_steps max_lr min_lr warmup_steps) := by
  have hmax : 0 ≤ max_lr := hmin.trans hmm
  have hwR : (0 : ℝ) < (warmup_steps : ℝ) := by exact_mod_cast hw
  have hD : (0 : ℝ) < (total_steps : ℝ) - (warmup_steps : ℝ) := by
    have : (warmup_steps : ℝ) < (total_steps : ℝ) := by exact_mod_cast hwt
    linarith
  refine ⟨?_, ?_, ?_, ?_, ?_⟩
  · simp [get_lr_with_cosine_decay_and_warmup, hw]
  · rw [get_lr_with_cosine_decay_and_warmup, if_neg (lt_irrefl warmup_steps)]
    simp [Real.cos_zero]
    ring
  · rw [get_lr_with_cosine_decay_and_warmup, if_neg (not_lt.mpr hwt.le)]
    rw [div_self hD.ne', mul_one, Real.cos_pi]
    ring
  · intro s s' hss hs'w
    by_cases h' : s' < warmup_steps
    · have hs : s < warmup_steps := lt_of_le_of_lt hss h'
      rw [get_lr_with_cosine_decay_and_warmup, if_pos hs,
        get_lr_with_cosine_decay_and_warmup, if_pos h']
      have : (s : ℝ) / (warmup_steps : ℝ) ≤ (s' : ℝ) / (warmup_steps : ℝ) :=
        (div_le_div_right hwR).mpr (by exact_mod_cast hss)
      exact mul_le_mul_of_nonneg_left this hmax
    · have hs' : s' = warmup_steps := le_antisymm hs'w (not_lt.mp h')
      by_cases hs : s < warmup_steps
      · rw [hs', get_lr_with_cosine_decay_and_warmup, if_pos hs,
          get_lr_with_cosine_decay_and_warmup, if_neg (lt_irrefl warmup_steps)]
        have h1 : (s : ℝ) / (warmup_steps : ℝ) ≤ 1 := by
          rw [div_le_one hwR]; exact_mod_cast hs.le
        have h2 : max_lr * ((s : ℝ) / (warmup_steps : ℝ)) ≤ max_lr := by
          have h := mul_le_mul_of_nonneg_left h1 hmax
          simpa using h
        have h3 : min_lr + 0.5 * (max_lr - min_lr) *
            (1 + Real.cos (Real.pi * (((warmup_steps : ℝ) - (warmup_steps : ℝ)) /
              ((total_steps : ℝ) - (warmup_steps : ℝ))))) = max_lr := by
          rw [sub_self, zero_div, mul_zero, Real.cos_zero]
          ring
        linarith [h2, h3]
      · have hseq : s = warmup_steps := le_antisymm (hs' ▸ hss) (not_lt.mp hs)
        rw [hs', hseq]
  · intro s s' hws hss' hs'T
    rw [get_lr_with_cosine_decay_and_warmup, if_neg (not_lt.mpr (hws.trans hss')),
      get_lr_with_cosine_decay_and_warmup, if_neg (not_lt.mpr hws)]
    have hp0 : 0 ≤ ((s : ℝ) - (warmup_steps : ℝ)) / ((total_steps : ℝ) - (warmup_steps : ℝ)) := by
      apply div_nonneg _ hD.le
      have : (warmup_steps : ℝ) ≤ (s : ℝ) := by exact_mod_cast hws
      linarith
    have hp'1 : ((s' : ℝ) - (warmup_steps : ℝ)) / ((total_steps : ℝ) - (warmup_steps : ℝ)) ≤ 1 := by
      rw [div_le_one hD]
      have : (s' : ℝ) ≤ (total_steps : ℝ) := by exact_mod_cast hs'T
      linarith
    have hpp' : ((s : ℝ) - (warmup_steps : ℝ)) / ((total_steps : ℝ) - (warmup_steps : ℝ)) ≤
        ((s' : ℝ) - (warmup_steps : ℝ)) / ((total_steps : ℝ) - (warmup_steps : ℝ)) := by
      apply (div_le_div_right hD).mpr
      have : (s : ℝ) ≤ (s' : ℝ) := by exact_mod_cast hss'
      linarith
    have hcos : Real.cos (Real.pi *
          (((s' : ℝ) - (warmup_steps : ℝ)) / ((total_steps : ℝ) - (warmup_steps : ℝ)))) ≤
        Real.cos (Real.pi *
          (((s : ℝ) - (warmup_steps : ℝ)) / ((total_steps : ℝ) - (warmup_steps : ℝ)))) := by
      apply Real.cos_le_cos_of_nonneg_of_le_pi
      · exact mul_nonneg Real.pi_pos.le hp0
      · calc Real.pi * (((s' : ℝ) - (warmup_steps : ℝ)) /
            ((total_steps : ℝ) - (warmup_steps : ℝ))) ≤ Real.pi * 1 :=
            mul_le_mul_of_nonneg_left hp'1 Real.pi_pos.le
          _ = Real.pi := mul_one _
      · exact mul_le_mul_of_nonneg_left hpp' Real.pi_pos.le
    have hc : 0 ≤ 0.5 * (max_lr - min_lr) := by linarith
    nlinarith [hcos, hc]

/-- Witness for C7 at `total_steps = 2`, `warmup_steps = 1`, `max_lr = 1`,
`min_lr = 0`. -/
theorem c7_lr_schedule_witness :
    0 < 1 ∧ 1 < 2 ∧ (0 : ℝ) ≤ (0 : ℝ) ∧ (0 : ℝ) ≤ (1 : ℝ) ∧
    (get_lr_with_cosine_decay_and_warmup 0 2 1 0 1 = 0 ∧
     get_lr_with_cosine_decay_and_warmup 1 2 1 0 1 = 1 ∧
     get_lr_with_cosine_decay_and_warmup 2 2 1 0 1 = 0 ∧
     (∀ s s', s ≤ s' → s' ≤ 1 →
       get_lr_with_cosine_decay_and_warmup s 2 1 0 1 ≤
         get_lr_with_cosine_decay_and_warmup s' 2 1 0 1) ∧
     (∀ s s', 1 ≤ s → s ≤ s' → s' ≤ 2 →
       get_lr_with_cosine_decay_and_warmup s' 2 1 0 1 ≤
         get_lr_with_cosine_decay_and_warmup s 2 1 0 1)) :=
  ⟨Nat.one_pos, by norm_num, le_refl 0, by norm_num,
   c7_lr_schedule 2 1 1 0 Nat.one_pos (by norm_num) (le_refl 0) (by norm_num)⟩

/-- C9: applying the rotary rotation with angle tables `(sin θ, cos θ)` and
then with the negated angle tables `(sin (-θ), cos (-θ))` recovers the
original vector at every coordinate of the (even) last axis. -/
theorem c9_rotary_roundtrip (dHalf : ℕ) (x : Arr4) (θ : Arr3) (b h t d : ℕ)
    (hd : d < 2 * dHalf) :
    apply_rotary_embedding dHalf
      (apply_rotary_embedding dHalf x
        (fun b t j => Real.sin (θ b t j)) (fun b t j => Real.cos (θ b t j)))
      (fun b t j => Real.sin (-(θ b t j))) (fun b t j => Real.cos (-(θ b t j)))
      b h t d = x b h t d := by
  by_cases hlt : d < dHalf
  · have hni : ¬ (dHalf + d < dHalf) := by omega
    simp only [apply_rotary_embedding, if_pos hlt, if_neg hni, Real.sin_neg,
      Real.cos_neg, Nat.add_sub_cancel_left]
    linear_combination x b h t d * Real.sin_sq_add_cos_sq (θ b t d)
  · have hge : dHalf ≤ d := not_lt.mp hlt
    have hil : d - dHalf < dHalf := by omega
    have hix : dHalf + (d - dHalf) = d := by omega
    simp only [apply_rotary_embedding, if_neg hlt, if_pos hil, Real.sin_neg,
      Real.cos_neg, hix]
    linear_combination x b h t d * Real.sin_sq_add_cos_sq (θ b t (d - dHalf))

/-- With `use_attn_kernel` set and a cache supplied, the very first layer of
the layer loop raises, and the error propagates through the remaining
bind/map chain. -/
theorem forwardLayers_kernel_cache_error (E : ℝ → ℝ)
    (kernelAttn : Arr4 → Arr4 → Arr4 → Seg → Seg → Arr4) (cfg : Cfg) (m : ℕ)
    (seg : Seg) (sin cos : Arr3) (W : WeightsM)
    (hker : cfg.use_attn_kernel = true) :
    ∀ n x c, 0 < n →
      forwardLayers E kernelAttn cfg m seg sin cos W n x (some c) =
        Except.error "Kernel is only for training."
  | 0, x, c => by omega
  | 1, x, c => fun _ => by
      simp [forwardLayers, forward_layer, hker, Except.bind, Except.map]
  | n + 2, x, c => fun _ => by
      rw [forwardLayers,
        forwardLayers_kernel_cache_error E kernelAttn cfg m seg sin cos W hker
          (n + 1) x c (Nat.succ_pos n)]
      rfl

/-- C4: for every config with `use_attn_kernel = true` (and a non-empty layer
stack), `forward` with a non-null cache — and likewise `forward_layer` itself
— returns the fatal `ValueError("Kernel is only for training.")`; since the
call errors out instead of producing an updated cache, no cache state is
advanced by the attention step. -/
theorem c4_kernel_rejects_cache (E : ℝ → ℝ)
    (kernelAttn : Arr4 → Arr4 → Arr4 → Seg → Seg → Arr4) (cfg : Cfg) (m : ℕ)
    (tokens : ℕ → ℕ → ℕ) (seg : Seg) (W : WeightsM) (c : KVCacheM)
    (hker : cfg.use_attn_kernel = true) (hnl : 0 < cfg.num_layers) :
    forward E kernelAttn cfg m tokens seg W (some c) =
      Except.error "Kernel is only for training." ∧
    (∀ x L sin cos idx, forward_layer E kernelAttn cfg m x seg L sin cos idx
        (some c) = Except.error "Kernel is only for training.") := by
  constructor
  · rw [forward]
    rw [forwardLayers_kernel_cache_error E kernelAttn cfg m seg
      (slicedSin cfg m (some c)) (slicedCos cfg m (some c)) W hker
      cfg.num_layers (embedTokens W tokens) c hnl]
    rfl
  · intro x L sin cos idx
    simp [forward_layer, hker]

/-- Witness for C4: a one-layer kernel-enabled config, zero weights and an
all-zero cache. -/
theorem c4_kernel_rejects_cache_witness :
    (Cfg.mk 1 1 1 1 1 2 1 2 true true).use_attn_kernel = true ∧
    0 < (Cfg.mk 1 1 1 1 1 2 1 2 true true).num_layers ∧
    forward Real.exp (fun _ _ _ _ _ => fun _ _ _ _ => 0)
      (Cfg.mk 1 1 1 1 1 2 1 2 true true) 1 (fun _ _ => 0) (fun _ _ => 1)
      (WeightsM.mk (fun _ => LayerW.mk (fun _ _ _ => 0) (fun _ _ _ => 0)
        (fun _ _ _ => 0) (fun _ _ _ => 0) (fun _ _ => 0) (fun _ _ => 0)
        (fun _ => 0) (fun _ => 0)) (fun _ _ => 0) (fun _ _ => 0))
      (some KVCacheM.init) = Except.error "Kernel is only for training." :=
  ⟨rfl, Nat.one_pos,
   (c4_kernel_rejects_cache Real.exp (fun _ _ _ _ _ => fun _ _ _ _ => 0)
     (Cfg.mk 1 1 1 1 1 2 1 2 true true) 1 (fun _ _ => 0) (fun _ _ => 1)
     (WeightsM.mk (fun _ => LayerW.mk (fun _ _ _ => 0) (fun _ _ _ => 0)
       (fun _ _ _ => 0) (fun _ _ _ => 0) (fun _ _ => 0) (fun _ _ => 0)
       (fun _ => 0) (fun _ => 0)) (fun _ _ => 0) (fun _ _ => 0))
     KVCacheM.init rfl Nat.one_pos).1⟩

/-- `make_attention_mask` holds exactly when the query and key segment ids
agree and — in causal mode — the key position does not exceed the query's
absolute position. -/
theorem make_attention_mask_eq_true_iff (qSeg kSeg : Seg) (qOffset : ℕ → ℕ)
    (causal : Bool) (b h t T : ℕ) :
    make_attention_mask qSeg kSeg qOffset causal b h t T = true ↔
      (qSeg b t = kSeg b T ∧ (causal = true → qOffset b + t ≥ T)) := by
  unfold make_attention_mask
  cases causal <;> simp [ge_iff_le]

/-- In exact arithmetic, `jax.nn.softmax`'s internal max-subtraction cancels:
the weights are plain `exp` ratios. -/
theorem softmaxE_exp_eq (n : ℕ) (f : ℕ → ℝ) (T : ℕ) :
    softmaxE Real.exp n f T =
      Real.exp (f T) / ∑ S ∈ Finset.range n, Real.exp (f S) := by
  unfold softmaxE
  have h : ∀ y : ℝ,
      Real.exp (y - rowMax f n) = Real.exp y * (Real.exp (rowMax f n))⁻¹ := by
    intro y; rw [Real.exp_sub, div_eq_mul_inv]
  simp only [h, ← Finset.sum_mul]
  exact mul_div_mul_right _ _ (inv_ne_zero (Real.exp_ne_zero _))

/-- C5 counterexample: for an all-padding chunk (`prepare_chunk` of the
single token `0` yields segment id `0`), the mask at a padding-query /
padding-key pair is `true` — the code's segment mask is plain equality
(`0 = 0` passes) and does not additionally require the common segment to be
non-padding, refuting the claim's "both belonging to the same non-padding
segment". -/
theorem c5_counterexample :
    (prepare_chunk (fun _ => 0) 1 1 0).2 0 0 = 0 ∧
    make_attention_mask (prepare_chunk (fun _ => 0) 1 1 0).2
      (prepare_chunk (fun _ => 0) 1 1 0).2 (fun _ => 0) true 0 0 0 0 = true :=
  ⟨rfl, rfl⟩

/-- C5 (amended): in the reference attention path the score mask is the
conjunction of plain segment-id equality — with no additional non-padding
requirement, so two padding positions (id 0) count as matching — and (when
causal) `query absolute position ≥ key position` (the query absolute
position being the cache prior-length offset plus the in-chunk index);
masked logits are set to the `-1e30` sentinel, and the softmax — computed in
full precision, `E = Real.exp` — weights the values. -/
theorem c5_attention_mask_softmax (Dk kLen : ℕ) (causal : Bool) (q k v : Arr4)
    (qSeg kSeg : Seg) (qOffset : ℕ → ℕ) (b h t d : ℕ) :
    attention Real.exp Dk kLen causal q k v qSeg kSeg qOffset b h t d =
      ∑ T ∈ Finset.range kLen,
        (Real.exp (if qSeg b t = kSeg b T ∧ (causal = true → qOffset b + t ≥ T)
            then attnScores Dk q k b h t T else (-1e30)) /
          ∑ S ∈ Finset.range kLen,
            Real.exp (if qSeg b t = kSeg b S ∧ (causal = true → qOffset b + t ≥ S)
              then attnScores Dk q k b h t S else (-1e30))) * v b h T d := by
  unfold attention
  refine Finset.sum_congr rfl (fun T _ => ?_)
  have hfn : (fun S => if make_attention_mask qSeg kSeg qOffset causal b h t S
      then attnScores Dk q k b h t S else (-1e30 : ℝ)) =
      (fun S => if qSeg b t = kSeg b S ∧ (causal = true → qOffset b + t ≥ S)
      then attnScores Dk q k b h t S else (-1e30 : ℝ)) := by
    funext S
    by_cases hm : qSeg b t = kSeg b S ∧ (causal = true → qOffset b + t ≥ S)
    · rw [if_pos ((make_attention_mask_eq_true_iff qSeg kSeg qOffset causal
        b h t S).mpr hm), if_pos hm]
    · rw [if_neg (fun hb => hm ((make_attention_mask_eq_true_iff qSeg kSeg
        qOffset causal b h t S).mp hb)), if_neg hm]
  rw [hfn, softmaxE_exp_eq]

/-- `jnp.argmax` over a non-empty axis returns an in-range index. -/
theorem jnpArgmax_lt (f : ℕ → ℝ) : ∀ n, 0 < n → jnpArgmax f n < n
  | 0 => by omega
  | 1 => fun _ => by simp [jnpArgmax]
  | n + 2 => fun _ => by
      rw [jnpArgmax]
      split
      · omega
      · have h := jnpArgmax_lt f (n + 1) (Nat.succ_pos n)
        omega

/-- `jnp.argmax` attains the maximum over the axis. -/
theorem jnpArgmax_le (f : ℕ → ℝ) : ∀ n, ∀ v, v < n → f v ≤ f (jnpArgmax f n)
  | 0 => fun v hv => absurd hv (by omega)
  | 1 => fun v hv => by
      have hv0 : v = 0 := by omega
      subst hv0
      simp [jnpArgmax]
  | n + 2 => fun v hv => by
      rw [jnpArgmax]
      split
      case isTrue hgt =>
        rcases Nat.lt_succ_iff_lt_or_eq.mp hv with h' | h'
        · exact le_of_lt (lt_of_le_of_lt (jnpArgmax_le f (n + 1) v h') hgt)
        · rw [h']
      case isFalse hng =>
        rcases Nat.lt_succ_iff_lt_or_eq.mp hv with h' | h'
        · exact jnpArgmax_le f (n + 1) v h'
        · rw [h']; exact not_lt.mp hng

/-- C8 counterexample: at logits `(4, 0)` and temperature `1`, the
distribution actually sampled by the non-greedy branch (`categorical`
applied to the softmax *probabilities*, i.e. `softmax(softmax(logits))`)
differs from temperature-scaled softmax sampling of the logits. -/
theorem c8_counterexample :
    sampleDist 2 (fun v => if v = 0 then (4 : ℝ) else 0) 1 ≠
      specSampleDist 2 (fun v => if v = 0 then (4 : ℝ) else 0) 1 := by
  intro heq
  have h0 := congrFun heq 0
  have hg0 : specSampleDist 2 (fun v => if v = 0 then (4 : ℝ) else 0) 1 0 =
      Real.exp 4 / (Real.exp 4 + 1) := by
    rw [specSampleDist, softmaxE_exp_eq, Finset.sum_range_succ,
      Finset.sum_range_succ, Finset.sum_range_zero]
    norm_num
  have hg1 : specSampleDist 2 (fun v => if v = 0 then (4 : ℝ) else 0) 1 1 =
      1 / (Real.exp 4 + 1) := by
    rw [specSampleDist, softmaxE_exp_eq, Finset.sum_range_succ,
      Finset.sum_range_succ, Finset.sum_range_zero]
    norm_num
  have hsamp : sampleDist 2 (fun v => if v = 0 then (4 : ℝ) else 0) 1 0 =
      Real.exp (specSampleDist 2 (fun v => if v = 0 then (4 : ℝ) else 0) 1 0) /
        (Real.exp (specSampleDist 2 (fun v => if v = 0 then (4 : ℝ) else 0) 1 0) +
          Real.exp (specSampleDist 2 (fun v => if v = 0 then (4 : ℝ) else 0) 1 1)) := by
    rw [sampleDist, categoricalDist, softmaxE_exp_eq, Finset.sum_range_succ,
      Finset.sum_range_succ, Finset.sum_range_zero]
    simp only [specSampleDist, zero_add]
  rw [hsamp, hg0, hg1] at h0
  have hd1 : (0 : ℝ) < Real.exp 4 + 1 := by positivity
  have hA1 : Real.exp 4 / (Real.exp 4 + 1) ≤ 1 := by
    rw [div_le_one hd1]; linarith
  have hB0 : (0 : ℝ) ≤ 1 / (Real.exp 4 + 1) := by positivity
  have hdenpos : (0 : ℝ) < Real.exp (Real.exp 4 / (Real.exp 4 + 1)) +
      Real.exp (1 / (Real.exp 4 + 1)) := by positivity
  rw [div_eq_div_iff hdenpos.ne' hd1.ne'] at h0
  have hkey : Real.exp (Real.exp 4 / (Real.exp 4 + 1)) =
      Real.exp 4 * Real.exp (1 / (Real.exp 4 + 1)) := by
    linear_combination h0
  rw [← Real.exp_add] at hkey
  have hgg := Real.exp_eq_exp.mp hkey
  linarith

/-- C8 (amended): with `greedy = true`, `sample_next_token` returns
`jnp.argmax` of the logits (an in-range maximiser); with `greedy = false` it
applies the categorical sampler with the *fixed* key `PRNGKey(0)` to the
softmax probabilities `softmax(logits/temperature)` — so repeated calls with
the same logits and temperature return the same token, but the effective
sampling distribution is `softmax(softmax(logits/temperature))`, not
`softmax(logits/temperature)` itself. -/
theorem c8_sampling_amended (V : ℕ) (hV : 0 < V)
    (categorical : ℕ → (ℕ → ℝ) → ℕ) (logits : ℕ → ℝ) (temperature : ℝ) :
    (sample_next_token Real.exp V categorical logits temperature true =
        jnpArgmax logits V ∧
      jnpArgmax logits V < V ∧
      (∀ v, v < V → logits v ≤ logits (jnpArgmax logits V))) ∧
    (sample_next_token Real.exp V categorical logits temperature false =
        categorical 0 (specSampleDist V logits temperature) ∧
      sampleDist V logits temperature =
        softmaxE Real.exp V
          (softmaxE Real.exp V (fun v => logits v / temperature))) :=
  ⟨⟨rfl, jnpArgmax_lt logits V hV, jnpArgmax_le logits V⟩, rfl, rfl⟩

/-- Witness for C8 (amended) at `V = 1`, a trivial sampler and zero logits. -/
theorem c8_sampling_amended_witness :
    0 < 1 ∧
    ((sample_next_token Real.exp 1 (fun _ _ => 0) (fun _ => (0 : ℝ)) 1 true =
        jnpArgmax (fun _ => (0 : ℝ)) 1 ∧
      jnpArgmax (fun _ => (0 : ℝ)) 1 < 1 ∧
      (∀ v, v < 1 →
        (fun _ => (0 : ℝ)) v ≤ (fun _ => (0 : ℝ)) (jnpArgmax (fun _ => (0 : ℝ)) 1))) ∧
    (sample_next_token Real.exp 1 (fun _ _ => 0) (fun _ => (0 : ℝ)) 1 false =
        (fun _ _ => 0 : ℕ → (ℕ → ℝ) → ℕ) 0 (specSampleDist 1 (fun _ => (0 : ℝ)) 1) ∧
      sampleDist 1 (fun _ => (0 : ℝ)) 1 =
        softmaxE Real.exp 1
          (softmaxE Real.exp 1 (fun v => (fun _ => (0 : ℝ)) v / 1)))) :=
  ⟨Nat.one_pos, c8_sampling_amended 1 Nat.one_pos (fun _ _ => 0) (fun _ => 0) 1⟩

/-- C10 counterexample: for the prompt `[5, 0, 7]` (padded to 4, pad id `0`),
the mid-prompt token id `0` gets segment id `0`, yet its cache slot (time
index 1, prior length 0) is *marked attend-able* by the positional key mask
and the attention mask is `true` there for the query at in-chunk position 2 —
so the token is not masked out of attention, contradicting the claim. -/
theorem c10_counterexample :
    (prepare_chunk (fun t => if t = 0 then 5 else if t = 1 then 0 else 7)
        3 4 0).2 0 1 = 0 ∧
    kSegsCache 4
      (prepare_chunk (fun t => if t = 0 then 5 else if t = 1 then 0 else 7)
        3 4 0).2 (fun _ => 0) 0 1 = 1 ∧
    make_attention_mask
      (qSegsCache
        (prepare_chunk (fun t => if t = 0 then 5 else if t = 1 then 0 else 7)
          3 4 0).2)
      (kSegsCache 4
        (prepare_chunk (fun t => if t = 0 then 5 else if t = 1 then 0 else 7)
          3 4 0).2 (fun _ => 0))
      (fun _ => 0) true 0 0 2 1 = true := by
  refine ⟨?_, ?_, ?_⟩ <;> rfl

/-- C10 (amended): in `sample_from_prompt`'s chunk preparation, every prompt
position holding token id `0` (the pad id) is assigned segment id `0` — even
if token id `0` is a genuine vocabulary token — is excluded from the
cache-length advance for that row, and as a *query* can attend to no valid
key; however it is not masked out of attention as a *key*: key validity in
the cached path is positional, so its written key/value slot stays
attend-able whenever enough non-padding tokens occupy the chunk after it. -/
theorem c10_pad_zero_amended (chunk : ℕ → ℕ) (len pad_to m : ℕ)
    (lengths : ℕ → ℕ) (b t0 : ℕ)
    (h0 : (prepare_chunk chunk len pad_to 0).1 b t0 = 0) :
    (prepare_chunk chunk len pad_to 0).2 b t0 = 0 ∧
    (∀ seg : Seg, incCount m seg b =
      ((Finset.range m).filter (fun t => seg b t ≠ 0)).card) ∧
    (t0 < m → t0 ∉ (Finset.range m).filter
      (fun t => (prepare_chunk chunk len pad_to 0).2 b t ≠ 0)) ∧
    (∀ h T, kSegsCache m (prepare_chunk chunk len pad_to 0).2 lengths b T = 1 →
      make_attention_mask (qSegsCache (prepare_chunk chunk len pad_to 0).2)
        (kSegsCache m (prepare_chunk chunk len pad_to 0).2 lengths) lengths
        true b h t0 T = false) ∧
    (t0 < incCount m (prepare_chunk chunk len pad_to 0).2 b →
      kSegsCache m (prepare_chunk chunk len pad_to 0).2 lengths b
        (lengths b + t0) = 1) := by
  have hseg : (prepare_chunk chunk len pad_to 0).2 b t0 = 0 := by
    simp only [prepare_chunk] at h0 ⊢
    simp [h0]
  refine ⟨hseg, ?_, ?_, ?_, ?_⟩
  · intro seg
    rw [incCount, Finset.sum_boole]
    simp
  · intro _ hmem
    rw [Finset.mem_filter] at hmem
    exact hmem.2 hseg
  · intro h T hT
    unfold make_attention_mask
    rw [hT]
    have hq : qSegsCache (prepare_chunk chunk len pad_to 0).2 b t0 = 0 := by
      simp [qSegsCache, hseg]
    rw [hq]
    simp
  · intro hlt
    unfold kSegsCache
    rw [if_pos (by omega)]

/-- Witness for C10 (amended) at the `[5, 0, 7]` prompt, `t0 = 1`. -/
theorem c10_pad_zero_amended_witness :
    (prepare_chunk (fun t => if t = 0 then 5 else if t = 1 then 0 else 7)
        3 4 0).1 0 1 = 0 ∧
    ((prepare_chunk (fun t => if t = 0 then 5 else if t = 1 then 0 else 7)
        3 4 0).2 0 1 = 0 ∧
    (∀ seg : Seg, incCount 4 seg 0 =
      ((Finset.range 4).filter (fun t => seg 0 t ≠ 0)).card) ∧
    (1 < 4 → 1 ∉ (Finset.range 4).filter
      (fun t => (prepare_chunk (fun t => if t = 0 then 5 else if t = 1 then 0 else 7)
        3 4 0).2 0 t ≠ 0)) ∧
    (∀ h T, kSegsCache 4
        (prepare_chunk (fun t => if t = 0 then 5 else if t = 1 then 0 else 7)
          3 4 0).2 (fun _ => 0) 0 T = 1 →
      make_attention_mask
        (qSegsCache (prepare_chunk
          (fun t => if t = 0 then 5 else if t = 1 then 0 else 7) 3 4 0).2)
        (kSegsCache 4 (prepare_chunk
          (fun t => if t = 0 then 5 else if t = 1 then 0 else 7) 3 4 0).2
          (fun _ => 0)) (fun _ => 0) true 0 h 1 T = false) ∧
    (1 < incCount 4 (prepare_chunk
        (fun t => if t = 0 then 5 else if t = 1 then 0 else 7) 3 4 0).2 0 →
      kSegsCache 4 (prepare_chunk
        (fun t => if t = 0 then 5 else if t = 1 then 0 else 7) 3 4 0).2
        (fun _ => 0) 0 ((fun _ => 0 : ℕ → ℕ) 0 + 1) = 1)) :=
  ⟨rfl, c10_pad_zero_amended
    (fun t => if t = 0 then 5 else if t = 1 then 0 else 7) 3 4 4
    (fun _ => 0) 0 1 rfl⟩

/-- C2: in a cached reference-path layer call whose chunk fits below
`max_seq_len`, the returned (and cache-written) key/value buffers hold the
chunk's keys/values starting at the row's own prior length offset, are zero
at every time index at or above `prior length + non-padding count`, and the
key-segment mask marks exactly the positions below that bound as
attend-able. -/
theorem c2_cache_update (E : ℝ → ℝ)
    (kernelAttn : Arr4 → Arr4 → Arr4 → Seg → Seg → Arr4) (cfg : Cfg) (m : ℕ)
    (x : Arr3) (seg : Seg) (L : LayerW) (sin cos : Arr3) (idx : ℕ)
    (c : KVCacheM) (hker : cfg.use_attn_kernel = false) (b : ℕ)
    (hfit : c.lengths b + m ≤ cfg.max_seq_len) :
    (∃ out, forward_layer E kernelAttn cfg m x seg L sin cos idx (some c) =
      Except.ok out) ∧
    ∀ out, forward_layer E kernelAttn cfg m x seg L sin cos idx (some c) =
        Except.ok out →
      ((∀ h t d, c.lengths b ≤ t → t < c.lengths b + m →
          t < c.lengths b + incCount m seg b →
          out.2.1 b h t d = layerK cfg L x sin cos b h (t - c.lengths b) d ∧
          out.2.2 b h t d = layerV cfg L x b h (t - c.lengths b) d) ∧
       (∀ h t d, c.lengths b + incCount m seg b ≤ t →
          out.2.1 b h t d = 0 ∧ out.2.2 b h t d = 0) ∧
       (∀ T, kSegsCache m seg c.lengths b T = 1 ↔
          T < c.lengths b + incCount m seg b)) := by
  have hok : forward_layer E kernelAttn cfg m x seg L sin cos idx (some c) =
      Except.ok
        (postAttn cfg L x
          (attention E cfg.key_dim cfg.max_seq_len cfg.causal
            (layerQ cfg L x sin cos)
            (maskCacheArr
              (updateCacheArr cfg.max_seq_len m (c.k idx)
                (layerK cfg L x sin cos) c.lengths)
              (kSegsCache m seg c.lengths))
            (maskCacheArr
              (updateCacheArr cfg.max_seq_len m (c.v idx) (layerV cfg L x)
                c.lengths)
              (kSegsCache m seg c.lengths))
            (qSegsCache seg) (kSegsCache m seg c.lengths) c.lengths),
         maskCacheArr
           (updateCacheArr cfg.max_seq_len m (c.k idx)
             (layerK cfg L x sin cos) c.lengths)
           (kSegsCache m seg c.lengths),
         maskCacheArr
           (updateCacheArr cfg.max_seq_len m (c.v idx) (layerV cfg L x)
             c.lengths)
           (kSegsCache m seg c.lengths)) := by
    rw [forward_layer]
    rw [if_neg (by rw [hker]; exact Bool.false_ne_true)]
  have hmin : min (c.lengths b) (cfg.max_seq_len - m) = c.lengths b :=
    Nat.min_eq_left (by omega)
  refine ⟨⟨_, hok⟩, ?_⟩
  intro out hout
  rw [hok] at hout
  obtain rfl := (Except.ok.inj hout).symm
  refine ⟨?_, ?_, ?_⟩
  · intro h t d hle hlt hbound
    constructor
    · show maskCacheArr _ _ b h t d = _
      simp only [maskCacheArr, updateCacheArr, kSegsCache, hmin]
      rw [if_pos hbound, if_pos ⟨hle, by omega⟩]
      simp
    · show maskCacheArr _ _ b h t d = _
      simp only [maskCacheArr, updateCacheArr, kSegsCache, hmin]
      rw [if_pos hbound, if_pos ⟨hle, by omega⟩]
      simp
  · intro h t d hge
    constructor
    · show maskCacheArr _ _ b h t d = 0
      simp only [maskCacheArr, kSegsCache]
      rw [if_neg (by omega)]
      simp
    · show maskCacheArr _ _ b h t d = 0
      simp only [maskCacheArr, kSegsCache]
      rw [if_neg (by omega)]
      simp
  · intro T
    unfold kSegsCache
    split_ifs with hsp <;> simp [hsp]

/-- Witness for C2: one-layer kernel-off config, zero weights, a length-1
chunk into the zero cache. -/
theorem c2_cache_update_witness :
    cfgRef.use_attn_kernel = false ∧
    KVCacheM.init.lengths 0 + 1 ≤ cfgRef.max_seq_len ∧
    ((∃ out, forward_layer Real.exp zeroKernel cfgRef 1 zeroArr3 onesSeg
        zeroLayer zeroArr3 zeroArr3 0 (some KVCacheM.init) = Except.ok out) ∧
     ∀ out, forward_layer Real.exp zeroKernel cfgRef 1 zeroArr3 onesSeg
        zeroLayer zeroArr3 zeroArr3 0 (some KVCacheM.init) = Except.ok out →
      ((∀ h t d, KVCacheM.init.lengths 0 ≤ t →
          t < KVCacheM.init.lengths 0 + 1 →
          t < KVCacheM.init.lengths 0 + incCount 1 onesSeg 0 →
          out.2.1 0 h t d =
            layerK cfgRef zeroLayer zeroArr3 zeroArr3 zeroArr3 0 h
              (t - KVCacheM.init.lengths 0) d ∧
          out.2.2 0 h t d =
            layerV cfgRef zeroLayer zeroArr3 0 h
              (t - KVCacheM.init.lengths 0) d) ∧
       (∀ h t d, KVCacheM.init.lengths 0 + incCount 1 onesSeg 0 ≤ t →
          out.2.1 0 h t d = 0 ∧ out.2.2 0 h t d = 0) ∧
       (∀ T, kSegsCache 1 onesSeg KVCacheM.init.lengths 0 T = 1 ↔
          T < KVCacheM.init.lengths 0 + incCount 1 onesSeg 0))) :=
  ⟨rfl, by decide,
   c2_cache_update Real.exp zeroKernel cfgRef 1 zeroArr3 onesSeg zeroLayer
     zeroArr3 zeroArr3 0 KVCacheM.init rfl 0 (by decide)⟩

/-- On the reference path the layer loop never fails, keeps the cache a
`some`, and leaves its lengths untouched at every layer. -/
theorem forwardLayers_ok_cache (E : ℝ → ℝ)
    (kernelAttn : Arr4 → Arr4 → Arr4 → Seg → Seg → Arr4) (cfg : Cfg) (m : ℕ)
    (seg : Seg) (sin cos : Arr3) (W : WeightsM)
    (hker : cfg.use_attn_kernel = false) :
    ∀ n (x : Arr3) (c : KVCacheM), ∃ y c',
      forwardLayers E kernelAttn cfg m seg sin cos W n x (some c) =
        Except.ok (y, some c') ∧ c'.lengths = c.lengths
  | 0, x, c => ⟨x, c, rfl, rfl⟩
  | n + 1, x, c => by
      obtain ⟨y, c', hok, hlen⟩ :=
        forwardLayers_ok_cache E kernelAttn cfg m seg sin cos W hker n x c
      rw [forwardLayers, hok]
      have hfl : forward_layer E kernelAttn cfg m y seg (W.layers n) sin cos n
          (some c') =
          Except.ok
            (postAttn cfg (W.layers n) y
              (attention E cfg.key_dim cfg.max_seq_len cfg.causal
                (layerQ cfg (W.layers n) y sin cos)
                (maskCacheArr
                  (updateCacheArr cfg.max_seq_len m (c'.k n)
                    (layerK cfg (W.layers n) y sin cos) c'.lengths)
                  (kSegsCache m seg c'.lengths))
                (maskCacheArr
                  (updateCacheArr cfg.max_seq_len m (c'.v n)
                    (layerV cfg (W.layers n) y) c'.lengths)
                  (kSegsCache m seg c'.lengths))
                (qSegsCache seg) (kSegsCache m seg c'.lengths) c'.lengths),
             maskCacheArr
               (updateCacheArr cfg.max_seq_len m (c'.k n)
                 (layerK cfg (W.layers n) y sin cos) c'.lengths)
               (kSegsCache m seg c'.lengths),
             maskCacheArr
               (updateCacheArr cfg.max_seq_len m (c'.v n)
                 (layerV cfg (W.layers n) y) c'.lengths)
               (kSegsCache m seg c'.lengths)) := by
        rw [forward_layer]
        rw [if_neg (by rw [hker]; exact Bool.false_ne_true)]
      simp only [Except.bind, hfl, Except.map, Option.map]
      exact ⟨_, _, rfl, hlen⟩

/-- C3: after a cached reference-path `forward` call the per-row lengths are
advanced exactly by the count of non-zero segment ids of that row's chunk
(hence never decrease), and this advance happens once at the end of the full
pass — every prefix of the layer loop still carries the original lengths. -/
theorem c3_lengths_advance (E : ℝ → ℝ)
    (kernelAttn : Arr4 → Arr4 → Arr4 → Seg → Seg → Arr4) (cfg : Cfg) (m : ℕ)
    (tokens : ℕ → ℕ → ℕ) (seg : Seg) (W : WeightsM) (c : KVCacheM)
    (hker : cfg.use_attn_kernel = false) :
    (∃ out, forward E kernelAttn cfg m tokens seg W (some c) = Except.ok out) ∧
    (∀ out, forward E kernelAttn cfg m tokens seg W (some c) = Except.ok out →
      ∃ c', out.2 = some c' ∧
        (∀ b, c'.lengths b = c.lengths b + incCount m seg b) ∧
        (∀ b, c.lengths b ≤ c'.lengths b)) ∧
    (∀ n s, forwardLayers E kernelAttn cfg m seg (slicedSin cfg m (some c))
        (slicedCos cfg m (some c)) W n (embedTokens W tokens) (some c) =
        Except.ok s →
      ∀ c'', s.2 = some c'' → ∀ b, c''.lengths b = c.lengths b) := by
  obtain ⟨y, c', hok, hlen⟩ :=
    forwardLayers_ok_cache E kernelAttn cfg m seg (slicedSin cfg m (some c))
      (slicedCos cfg m (some c)) W hker cfg.num_layers (embedTokens W tokens) c
  have hfwd : forward E kernelAttn cfg m tokens seg W (some c) =
      Except.ok
        (vocabLogits cfg W y,
         some ⟨c'.k, c'.v, fun b => c'.lengths b + incCount m seg b⟩) := by
    rw [forward]
    rw [hok]
    rfl
  refine ⟨⟨_, hfwd⟩, ?_, ?_⟩
  · intro out hout
    rw [hfwd] at hout
    obtain rfl := (Except.ok.inj hout).symm
    refine ⟨_, rfl, ?_, ?_⟩
    · intro b
      show c'.lengths b + incCount m seg b = c.lengths b + incCount m seg b
      rw [hlen]
    · intro b
      show c.lengths b ≤ c'.lengths b + incCount m seg b
      rw [hlen]
      exact Nat.le_add_right _ _
  · intro n s hs c'' hc'' b
    obtain ⟨y2, c2, hok2, hlen2⟩ :=
      forwardLayers_ok_cache E kernelAttn cfg m seg (slicedSin cfg m (some c))
        (slicedCos cfg m (some c)) W hker n (embedTokens W tokens) c
    rw [hok2] at hs
    obtain rfl := (Except.ok.inj hs).symm
    obtain rfl := (Option.some.inj hc'').symm
    rw [hlen2]

/-- Witness for C3: one-layer kernel-off config, zero weights, a length-1
all-valid chunk into the zero cache. -/
theorem c3_lengths_advance_witness :
    cfgRef.use_attn_kernel = false ∧
    ((∃ out, forward Real.exp zeroKernel cfgRef 1 (fun _ _ => 0) onesSeg
        zeroWeights (some KVCacheM.init) = Except.ok out) ∧
     (∀ out, forward Real.exp zeroKernel cfgRef 1 (fun _ _ => 0) onesSeg
        zeroWeights (some KVCacheM.init) = Except.ok out →
      ∃ c', out.2 = some c' ∧
        (∀ b, c'.lengths b =
          KVCacheM.init.lengths b + incCount 1 onesSeg b) ∧
        (∀ b, KVCacheM.init.lengths b ≤ c'.lengths b)) ∧
     (∀ n s, forwardLayers Real.exp zeroKernel cfgRef 1 onesSeg
        (slicedSin cfgRef 1 (some KVCacheM.init))
        (slicedCos cfgRef 1 (some KVCacheM.init)) zeroWeights n
        (embedTokens zeroWeights (fun _ _ => 0)) (some KVCacheM.init) =
        Except.ok s →
      ∀ c'', s.2 = some c'' → ∀ b,
        c''.lengths b = KVCacheM.init.lengths b)) :=
  ⟨rfl, c3_lengths_advance Real.exp zeroKernel cfgRef 1 (fun _ _ => 0) onesSeg
    zeroWeights KVCacheM.init rfl⟩

/-- `rowMax` bounds every entry of the axis. -/
theorem rowMax_le (f : ℕ → ℝ) : ∀ n T, T < n → f T ≤ rowMax f n
  | 0, T => by omega
  | 1, T => fun hT => by
      have h0 : T = 0 := by omega
      subst h0
      exact le_refl _
  | n + 2, T => fun hT => by
      rw [rowMax]
      rcases Nat.lt_succ_iff_lt_or_eq.mp hT with h | h
      · exact le_trans (rowMax_le f (n + 1) T h) (le_max_left _ _)
      · rw [h]; exact le_max_right _ _

/-- `rowMax` of a non-empty axis is attained. -/
theorem rowMax_mem (f : ℕ → ℝ) : ∀ n, 0 < n → ∃ T, T < n ∧ rowMax f n = f T
  | 0 => by omega
  | 1 => fun _ => ⟨0, Nat.one_pos, rfl⟩
  | n + 2 => fun _ => by
      rw [rowMax]
      rcases max_choice (rowMax f (n + 1)) (f (n + 1)) with h | h
      · obtain ⟨T, hT, hEq⟩ := rowMax_mem f (n + 1) (Nat.succ_pos n)
        exact ⟨T, by omega, by rw [h, hEq]⟩
      · exact ⟨n + 1, by omega, h⟩

/-- Two masked score rows that agree up to `a` and are the `-1e30` sentinel
beyond have the same row maximum. -/
theorem rowMax_eq_of_agree (f g : ℕ → ℝ) (n1 n2 a : ℕ)
    (ha1 : a < n1) (ha2 : a < n2)
    (hfg : ∀ T, T ≤ a → f T = g T)
    (hf : ∀ T, a < T → T < n1 → f T = -1e30)
    (hg : ∀ T, a < T → T < n2 → g T = -1e30)
    (hfa : (-1e30 : ℝ) ≤ f a) :
    rowMax f n1 = rowMax g n2 := by
  apply le_antisymm
  · obtain ⟨T, hT, hEq⟩ := rowMax_mem f n1 (by omega)
    rw [hEq]
    by_cases hTa : T ≤ a
    · rw [hfg T hTa]; exact rowMax_le g n2 T (by omega)
    · rw [hf T (by omega) hT]
      calc (-1e30 : ℝ) ≤ f a := hfa
        _ = g a := hfg a le_rfl
        _ ≤ rowMax g n2 := rowMax_le g n2 a ha2
  · obtain ⟨T, hT, hEq⟩ := rowMax_mem g n2 (by omega)
    rw [hEq]
    by_cases hTa : T ≤ a
    · rw [← hfg T hTa]; exact rowMax_le f n1 T (by omega)
    · rw [hg T (by omega) hT]
      calc (-1e30 : ℝ) ≤ f a := hfa
        _ ≤ rowMax f n1 := rowMax_le f n1 a ha1

/-- Core agreement lemma: two reference-attention calls whose masks select
exactly the key positions `T ≤ a`, whose scores and values agree there, and
whose backend exponential underflows to exactly `0` below `-104` (as
`float32` `exp` does), produce identical outputs — the `-1e30`-masked
entries contribute exactly nothing to either softmax. -/
theorem attention_agree (E : ℝ → ℝ) (hE : ∀ y : ℝ, y ≤ -104 → E y = 0)
    (Dk n1 n2 : ℕ) (c1 c2 : Bool) (q1 k1 v1 q2 k2 v2 : Arr4)
    (qs1 ks1 qs2 ks2 : Seg) (off1 off2 : ℕ → ℕ) (b h t1 t2 a : ℕ)
    (ha1 : a < n1) (ha2 : a < n2)
    (hm1 : ∀ T, T < n1 →
      (make_attention_mask qs1 ks1 off1 c1 b h t1 T = true ↔ T ≤ a))
    (hm2 : ∀ T, T < n2 →
      (make_attention_mask qs2 ks2 off2 c2 b h t2 T = true ↔ T ≤ a))
    (hsc : ∀ T, T ≤ a →
      attnScores Dk q1 k1 b h t1 T = attnScores Dk q2 k2 b h t2 T)
    (hv : ∀ T, T ≤ a → ∀ d, v1 b h T d = v2 b h T d)
    (hdiag : (-1e29 : ℝ) ≤ attnScores Dk q1 k1 b h t1 a) :
    ∀ d, attention E Dk n1 c1 q1 k1 v1 qs1 ks1 off1 b h t1 d =
         attention E Dk n2 c2 q2 k2 v2 qs2 ks2 off2 b h t2 d := by
  intro d
  unfold attention
  set f : ℕ → ℝ := fun S => if make_attention_mask qs1 ks1 off1 c1 b h t1 S
    then attnScores Dk q1 k1 b h t1 S else (-1e30) with hfdef
  set g : ℕ → ℝ := fun S => if make_attention_mask qs2 ks2 off2 c2 b h t2 S
    then attnScores Dk q2 k2 b h t2 S else (-1e30) with hgdef
  have hfa : f a = attnScores Dk q1 k1 b h t1 a := by
    simp only [hfdef]
    rw [if_pos ((hm1 a ha1).mpr le_rfl)]
  have hfg : ∀ T, T ≤ a → f T = g T := by
    intro T hT
    simp only [hfdef, hgdef]
    rw [if_pos ((hm1 T (by omega)).mpr hT), if_pos ((hm2 T (by omega)).mpr hT)]
    exact hsc T hT
  have hfm : ∀ T, a < T → T < n1 → f T = (-1e30 : ℝ) := by
    intro T h1 h2
    simp only [hfdef]
    exact if_neg (fun hmask => absurd ((hm1 T h2).mp hmask) (by omega))
  have hgm : ∀ T, a < T → T < n2 → g T = (-1e30 : ℝ) := by
    intro T h1 h2
    simp only [hgdef]
    exact if_neg (fun hmask => absurd ((hm2 T h2).mp hmask) (by omega))
  have hM : rowMax f n1 = rowMax g n2 :=
    rowMax_eq_of_agree f g n1 n2 a ha1 ha2 hfg hfm hgm (by rw [hfa]; linarith)
  have hMge : (-1e29 : ℝ) ≤ rowMax f n1 := by
    calc (-1e29 : ℝ) ≤ f a := by rw [hfa]; exact hdiag
      _ ≤ rowMax f n1 := rowMax_le f n1 a ha1
  have hz1 : ∀ T, a < T → T < n1 → E (f T - rowMax f n1) = 0 := by
    intro T h1 h2
    rw [hfm T h1 h2]
    apply hE
    have h9 : (-1e30 : ℝ) + 1e29 ≤ -104 := by norm_num
    linarith
  have hz2 : ∀ T, a < T → T < n2 → E (g T - rowMax g n2) = 0 := by
    intro T h1 h2
    rw [hgm T h1 h2, ← hM]
    apply hE
    have h9 : (-1e30 : ℝ) + 1e29 ≤ -104 := by norm_num
    linarith
  have hsub1 : Finset.range (a + 1) ⊆ Finset.range n1 :=
    Finset.range_subset.mpr (by omega)
  have hsub2 : Finset.range (a + 1) ⊆ Finset.range n2 :=
    Finset.range_subset.mpr (by omega)
  have hden1 : ∑ S ∈ Finset.range n1, E (f S - rowMax f n1) =
      ∑ S ∈ Finset.range (a + 1), E (f S - rowMax f n1) :=
    (Finset.sum_subset hsub1 (fun T hT hnT =>
      hz1 T (by simp only [Finset.mem_range] at hnT; omega)
        (Finset.mem_range.mp hT))).symm
  have hden2 : ∑ S ∈ Finset.range n2, E (g S - rowMax g n2) =
      ∑ S ∈ Finset.range (a + 1), E (g S - rowMax g n2) :=
    (Finset.sum_subset hsub2 (fun T hT hnT =>
      hz2 T (by simp only [Finset.mem_range] at hnT; omega)
        (Finset.mem_range.mp hT))).symm
  have hterm1 : ∑ T ∈ Finset.range n1, softmaxE E n1 f T * v1 b h T d =
      ∑ T ∈ Finset.range (a + 1), softmaxE E n1 f T * v1 b h T d :=
    (Finset.sum_subset hsub1 (fun T hT hnT => by
      unfold softmaxE
      rw [hz1 T (by simp only [Finset.mem_range] at hnT; omega)
        (Finset.mem_range.mp hT)]
      simp)).symm
  have hterm2 : ∑ T ∈ Finset.range n2, softmaxE E n2 g T * v2 b h T d =
      ∑ T ∈ Finset.range (a + 1), softmaxE E n2 g T * v2 b h T d :=
    (Finset.sum_subset hsub2 (fun T hT hnT => by
      unfold softmaxE
      rw [hz2 T (by simp only [Finset.mem_range] at hnT; omega)
        (Finset.mem_range.mp hT)]
      simp)).symm
  rw [hterm1, hterm2]
  apply Finset.sum_congr rfl
  intro T hT
  have hTa : T ≤ a := by simp only [Finset.mem_range] at hT; omega
  unfold softmaxE
  rw [hden1, hden2, hM, hv T hTa d, hfg T hTa]
  have hdenc : (∑ S ∈ Finset.range (a + 1), E (f S - rowMax g n2)) =
      ∑ S ∈ Finset.range (a + 1), E (g S - rowMax g n2) :=
    Finset.sum_congr rfl (fun S hS => by
      rw [hfg S (by simp only [Finset.mem_range] at hS; omega)])
  rw [hdenc]

/-- The cached-path query segment ids of an all-valid chunk are all `1`. -/
theorem qSegsCache_ones : ∀ b t, qSegsCache onesSeg b t = 1 := by
  intro b t
  simp [qSegsCache, onesSeg]

/-- An all-valid chunk of length `m` contributes `m` non-padding tokens. -/
theorem incCount_ones (m b : ℕ) : incCount m onesSeg b = m := by
  simp [incCount, onesSeg]

/-- Mask support of a cached attention call on an all-valid chunk: key `T` is
attend-able for in-chunk query `p` exactly when `T ≤ lengths[b] + p`. -/
theorem cached_mask_char (m : ℕ) (lens : ℕ → ℕ) (b h p T : ℕ) (hp : p < m) :
    (make_attention_mask (qSegsCache onesSeg) (kSegsCache m onesSeg lens) lens
      true b h p T = true) ↔ T ≤ lens b + p := by
  have hk : kSegsCache m onesSeg lens b T =
      if T < lens b + m then 1 else 0 := by
    rw [kSegsCache, incCount_ones]
  simp only [make_attention_mask, qSegsCache_ones, hk]
  by_cases hTm : T < lens b + m
  · rw [if_pos hTm]
    simp
  · rw [if_neg hTm]
    simp only [if_true]
    constructor
    · intro hcon
      simp at hcon
    · intro hcon
      omega

/-- Mask support of the uncached all-valid call: key `T` is attend-able for
query `a` exactly when `T ≤ a`. -/
theorem full_mask_char (b h a T : ℕ) :
    (make_attention_mask onesSeg onesSeg (fun _ => 0) true b h a T = true) ↔
      T ≤ a := by
  simp [make_attention_mask, onesSeg]

/-- Per-row dynamic slicing of the rotary table at offset `lengths[b]` reads
the same entries as slicing the table at `0` and indexing at the absolute
position, provided the slice fits. -/
theorem slices_at_align (tableLen m n : ℕ) (table : ℕ → ℕ → ℝ)
    (lens : ℕ → ℕ) (b p j : ℕ) (hfit : lens b + m ≤ tableLen) :
    slices_at tableLen m table lens b p j =
      slices_at tableLen n table (fun _ => 0) b (lens b + p) j := by
  unfold slices_at
  rw [Nat.min_eq_left (by omega), Nat.min_eq_left (Nat.zero_le _),
    Nat.zero_add]

/-- `slicedSin` alignment between a cached chunk call and the uncached run. -/
theorem slicedSin_align (cfg : Cfg) (m n : ℕ) (c : KVCacheM) (b p j : ℕ)
    (hfit : c.lengths b + m ≤ cfg.max_seq_len) :
    slicedSin cfg m (some c) b p j =
      slicedSin cfg n none b (c.lengths b + p) j := by
  unfold slicedSin startIndices
  exact slices_at_align cfg.max_seq_len m n _ c.lengths b p j hfit

/-- `slicedCos` alignment between a cached chunk call and the uncached run. -/
theorem slicedCos_align (cfg : Cfg) (m n : ℕ) (c : KVCacheM) (b p j : ℕ)
    (hfit : c.lengths b + m ≤ cfg.max_seq_len) :
    slicedCos cfg m (some c) b p j =
      slicedCos cfg n none b (c.lengths b + p) j := by
  unfold slicedCos startIndices
  exact slices_at_align cfg.max_seq_len m n _ c.lengths b p j hfit

/-- `rms_norm` is pointwise in the (batch, time) position. -/
theorem rms_norm_congr (D : ℕ) (γ : ℕ → ℝ) (x y : Arr3) (b t t' : ℕ)
    (hx : ∀ d, x b t d = y b t' d) :
    ∀ d, rms_norm D γ x b t d = rms_norm D γ y b t' d := by
  intro d
  have hsum : (∑ i ∈ Finset.range D, x b t i ^ 2) =
      ∑ i ∈ Finset.range D, y b t' i ^ 2 :=
    Finset.sum_congr rfl (fun i _ => by rw [hx i])
  unfold rms_norm
  rw [hx d, hsum]

/-- The normalized projection `einsum("btd,dh?->bht?")` is pointwise in the
(batch, time) position. -/
theorem proj_congr (D : ℕ) (γ : ℕ → ℝ) (Wt : ℕ → ℕ → ℕ → ℝ) (x y : Arr3)
    (b t t' : ℕ) (hx : ∀ d, x b t d = y b t' d) :
    ∀ h dq, (∑ d ∈ Finset.range D, rms_norm D γ x b t d * Wt d h dq) =
      ∑ d ∈ Finset.range D, rms_norm D γ y b t' d * Wt d h dq :=
  fun h dq => Finset.sum_congr rfl
    (fun d _ => by rw [rms_norm_congr D γ x y b t t' hx d])

/-- `apply_rotary_embedding` is pointwise in the (batch, head, time)
position, given matching tables. -/
theorem apply_rotary_congr (dHalf : ℕ) (x y : Arr4) (sin cos sin' cos' : Arr3)
    (b h t t' : ℕ) (hx : ∀ d, x b h t d = y b h t' d)
    (hs : ∀ j, sin b t j = sin' b t' j) (hc : ∀ j, cos b t j = cos' b t' j) :
    ∀ d, apply_rotary_embedding dHalf x sin cos b h t d =
      apply_rotary_embedding dHalf y sin' cos' b h t' d := by
  intro d
  unfold apply_rotary_embedding
  by_cases hd : d < dHalf
  · rw [if_pos hd, if_pos hd, hx d, hx (dHalf + d), hs d, hc d]
  · rw [if_neg hd, if_neg hd, hx (d - dHalf), hx d, hs (d - dHalf),
      hc (d - dHalf)]

/-- `layerQ` congruence across runs. -/
theorem layerQ_congr (cfg : Cfg) (L : LayerW) (x y sin cos sin' cos' : Arr3)
    (b t t' : ℕ) (hx : ∀ d, x b t d = y b t' d)
    (hs : ∀ j, sin b t j = sin' b t' j) (hc : ∀ j, cos b t j = cos' b t' j) :
    ∀ h dq, layerQ cfg L x sin cos b h t dq = layerQ cfg L y sin' cos' b h t' dq := by
  intro h dq
  exact apply_rotary_congr (cfg.key_dim / 2) _ _ sin cos sin' cos' b h t t'
    (fun d => proj_congr cfg.d_model L.gamma1 L.q x y b t t' hx h d) hs hc dq

/-- `layerK` congruence across runs. -/
theorem layerK_congr (cfg : Cfg) (L : LayerW) (x y sin cos sin' cos' : Arr3)
    (b t t' : ℕ) (hx : ∀ d, x b t d = y b t' d)
    (hs : ∀ j, sin b t j = sin' b t' j) (hc : ∀ j, cos b t j = cos' b t' j) :
    ∀ h dk, layerK cfg L x sin cos b h t dk = layerK cfg L y sin' cos' b h t' dk := by
  intro h dk
  exact apply_rotary_congr (cfg.key_dim / 2) _ _ sin cos sin' cos' b h t t'
    (fun d => proj_congr cfg.d_model L.gamma1 L.k x y b t t' hx h d) hs hc dk

/-- `layerV` congruence across runs. -/
theorem layerV_congr (cfg : Cfg) (L : LayerW) (x y : Arr3) (b t t' : ℕ)
    (hx : ∀ d, x b t d = y b t' d) :
    ∀ h dv, layerV cfg L x b h t dv = layerV cfg L y b h t' dv :=
  fun h dv => proj_congr cfg.d_model L.gamma1 L.v x y b t t' hx h dv

/-- `postAttn` congruence across runs: only the in-range heads of the
attention output are consumed. -/
theorem postAttn_congr (cfg : Cfg) (L : LayerW) (x y : Arr3)
    (attn attn' : Arr4) (b t t' : ℕ) (hx : ∀ d, x b t d = y b t' d)
    (hattn : ∀ h, h < cfg.query_heads → ∀ dq, attn b h t dq = attn' b h t' dq) :
    ∀ d, postAttn cfg L x attn b t d = postAttn cfg L y attn' b t' d := by
  have hx1 : ∀ i, attnResidual cfg L x attn b t i =
      attnResidual cfg L y attn' b t' i := by
    intro i
    unfold attnResidual
    rw [hx i]
    congr 1
    refine Finset.sum_congr rfl (fun h hh => Finset.sum_congr rfl (fun dq _ => ?_))
    rw [hattn h (Finset.mem_range.mp hh) dq]
  intro d
  unfold postAttn
  rw [hx1 d]
  congr 1
  refine Finset.sum_congr rfl (fun f _ => ?_)
  congr 2
  refine Finset.sum_congr rfl (fun i _ => ?_)
  rw [rms_norm_congr cfg.d_model L.gamma2 (attnResidual cfg L x attn)
    (attnResidual cfg L y attn') b t t' hx1 i]

/-- On the reference path the uncached layer loop never fails and keeps the
cache absent. -/
theorem forwardLayers_none_ok (E : ℝ → ℝ)
    (kernelAttn : Arr4 → Arr4 → Arr4 → Seg → Seg → Arr4) (cfg : Cfg) (m : ℕ)
    (seg : Seg) (sin cos : Arr3) (W : WeightsM)
    (hker : cfg.use_attn_kernel = false) :
    ∀ l (x : Arr3), ∃ y,
      forwardLayers E kernelAttn cfg m seg sin cos W l x none =
        Except.ok (y, none)
  | 0, x => ⟨x, rfl⟩
  | l + 1, x => by
      obtain ⟨y, hy⟩ :=
        forwardLayers_none_ok E kernelAttn cfg m seg sin cos W hker l x
      rw [forwardLayers, hy]
      have hfl : forward_layer E kernelAttn cfg m y seg (W.layers l) sin cos l
          none =
          Except.ok
            (postAttn cfg (W.layers l) y
              (attention E cfg.key_dim m cfg.causal
                (layerQ cfg (W.layers l) y sin cos)
                (layerK cfg (W.layers l) y sin cos)
                (layerV cfg (W.layers l) y) seg seg (fun _ => 0)),
             layerK cfg (W.layers l) y sin cos, layerV cfg (W.layers l) y) := by
        rw [forward_layer]
        rw [if_neg (by rw [hker]; exact Bool.false_ne_true)]
      simp only [Except.bind, hfl, Except.map, Option.map]
      exact ⟨_, rfl⟩

/-- The uncached layer loop on the reference run computes `fullStream`. -/
theorem forwardLayers_none_fullStream (E : ℝ → ℝ)
    (kernelAttn : Arr4 → Arr4 → Arr4 → Seg → Seg → Arr4) (cfg : Cfg)
    (W : WeightsM) (toks : ℕ → ℕ → ℕ) (n : ℕ)
    (hker : cfg.use_attn_kernel = false) (l : ℕ) :
    forwardLayers E kernelAttn cfg n onesSeg (slicedSin cfg n none)
      (slicedCos cfg n none) W l (embedTokens W toks) none =
      Except.ok (fullStream E kernelAttn cfg W toks n l, none) := by
  obtain ⟨y, hy⟩ := forwardLayers_none_ok E kernelAttn cfg n onesSeg
    (slicedSin cfg n none) (slicedCos cfg n none) W hker l (embedTokens W toks)
  rw [fullStream, hy]
  rfl

/-- One step of `fullStream`: layer `l` applied to the stream after `l`
layers, with the uncached reference attention. -/
theorem fullStream_succ (E : ℝ → ℝ)
    (kernelAttn : Arr4 → Arr4 → Arr4 → Seg → Seg → Arr4) (cfg : Cfg)
    (W : WeightsM) (toks : ℕ → ℕ → ℕ) (n : ℕ)
    (hker : cfg.use_attn_kernel = false) (l : ℕ) :
    fullStream E kernelAttn cfg W toks n (l + 1) =
      postAttn cfg (W.layers l) (fullStream E kernelAttn cfg W toks n l)
        (attention E cfg.key_dim n cfg.causal
          (fullQ E kernelAttn cfg W toks n l)
          (fullK E kernelAttn cfg W toks n l)
          (fullV E kernelAttn cfg W toks n l) onesSeg onesSeg (fun _ => 0)) := by
  have h1 := forwardLayers_none_fullStream E kernelAttn cfg W toks n hker l
  have hfl : forward_layer E kernelAttn cfg n
      (fullStream E kernelAttn cfg W toks n l) onesSeg (W.layers l)
      (slicedSin cfg n none) (slicedCos cfg n none) l none =
      Except.ok
        (postAttn cfg (W.layers l) (fullStream E kernelAttn cfg W toks n l)
          (attention E cfg.key_dim n cfg.causal
            (fullQ E kernelAttn cfg W toks n l)
            (fullK E kernelAttn cfg W toks n l)
            (fullV E kernelAttn cfg W toks n l) onesSeg onesSeg (fun _ => 0)),
         fullK E kernelAttn cfg W toks n l,
         fullV E kernelAttn cfg W toks n l) := by
    rw [forward_layer]
    rw [if_neg (by rw [hker]; exact Bool.false_ne_true)]
    rfl
  have hL : fullStream E kernelAttn cfg W toks n (l + 1) =
      getOkNoCache (forwardLayers E kernelAttn cfg n onesSeg
        (slicedSin cfg n none) (slicedCos cfg n none) W (l + 1)
        (embedTokens W toks) none) := rfl
  rw [hL, forwardLayers, h1]
  simp only [Except.bind, hfl, Except.map, Option.map]
  rfl

/-- The uncached reference logits are the un-embedding of the final
stream. -/
theorem fullCall_eq (E : ℝ → ℝ)
    (kernelAttn : Arr4 → Arr4 → Arr4 → Seg → Seg → Arr4) (cfg : Cfg)
    (W : WeightsM) (toks : ℕ → ℕ → ℕ) (n : ℕ)
    (hker : cfg.use_attn_kernel = false) :
    fullCall E kernelAttn cfg W toks n =
      vocabLogits cfg W
        (fullStream E kernelAttn cfg W toks n cfg.num_layers) := by
  have h1 := forwardLayers_none_fullStream E kernelAttn cfg W toks n hker
    cfg.num_layers
  have hL : fullCall E kernelAttn cfg W toks n =
      getOkNoCache (forward E kernelAttn cfg n toks onesSeg W none) := rfl
  rw [hL, forward, h1]
  rfl

/-- After a cached all-valid chunk update at offset `off`, the masked buffer
equals the reference array strictly below `off + m` and is zero at and above
it. -/
theorem updated_buffer_eq (Tmax m off : ℕ) (hoffm : off + m ≤ Tmax)
    (old upd full : Arr4) (lens : ℕ → ℕ) (hlens : ∀ b, lens b = off)
    (hold : ∀ b h T dk, (T < off → old b h T dk = full b h T dk) ∧
      (off ≤ T → old b h T dk = 0))
    (hupd : ∀ b p, p < m → ∀ h dk, upd b h p dk = full b h (off + p) dk) :
    ∀ b h T dk,
      (T < off + m →
        maskCacheArr (updateCacheArr Tmax m old upd lens)
          (kSegsCache m onesSeg lens) b h T dk = full b h T dk) ∧
      (off + m ≤ T →
        maskCacheArr (updateCacheArr Tmax m old upd lens)
          (kSegsCache m onesSeg lens) b h T dk = 0) := by
  intro b h T dk
  have hmin : min off (Tmax - m) = off := Nat.min_eq_left (by omega)
  constructor
  · intro hT
    simp only [maskCacheArr, updateCacheArr, kSegsCache, incCount_ones,
      hlens b, hmin]
    rw [if_pos hT]
    by_cases hTo : off ≤ T
    · rw [if_pos ⟨hTo, by omega⟩, hupd b (T - off) (by omega) h dk,
        Nat.add_sub_cancel' hTo]
      simp
    · rw [if_neg (by omega)]
      rw [(hold b h T dk).1 (by omega)]
      simp
  · intro hT
    simp only [maskCacheArr, kSegsCache, incCount_ones, hlens b]
    rw [if_neg (by omega)]
    simp

/-- Layer-loop agreement between a cached all-valid chunk call at offset
`off` and the uncached reference run: the chunk's residual stream tracks the
reference stream at the shifted positions, lengths are untouched inside the
loop, already-processed layers hold the reference keys/values up to the new
bound `off + m` (zero beyond), and unprocessed layers are untouched. -/
theorem layers_agree (E : ℝ → ℝ)
    (kA : Arr4 → Arr4 → Arr4 → Seg → Seg → Arr4) (cfg : Cfg) (W : WeightsM)
    (toks : ℕ → ℕ → ℕ) (n : ℕ)
    (hE : ∀ y : ℝ, y ≤ -104 → E y = 0)
    (hcausal : cfg.causal = true) (hker : cfg.use_attn_kernel = false)
    (hTmax : n ≤ cfg.max_seq_len)
    (hscore : ScoresBounded E kA cfg W toks n)
    (off m : ℕ) (hoffm : off + m ≤ n)
    (tk : ℕ → ℕ → ℕ) (htk : ∀ b p, p < m → tk b p = toks b (off + p))
    (c : KVCacheM) (hclen : ∀ b, c.lengths b = off)
    (hcinv : ∀ l, l < cfg.num_layers → ∀ b h T dk,
      (T < off → c.k l b h T dk = fullK E kA cfg W toks n l b h T dk ∧
                 c.v l b h T dk = fullV E kA cfg W toks n l b h T dk) ∧
      (off ≤ T → c.k l b h T dk = 0 ∧ c.v l b h T dk = 0)) :
    ∀ l, l ≤ cfg.num_layers → ∃ y cl,
      forwardLayers E kA cfg m onesSeg (slicedSin cfg m (some c))
        (slicedCos cfg m (some c)) W l (embedTokens W tk) (some c) =
        Except.ok (y, some cl) ∧
      (∀ b p d, p < m →
        y b p d = fullStream E kA cfg W toks n l b (off + p) d) ∧
      cl.lengths = c.lengths ∧
      (∀ j, cfg.num_layers ≤ j ∨ l ≤ j → cl.k j = c.k j ∧ cl.v j = c.v j) ∧
      (∀ j, j < cfg.num_layers → j < l → ∀ b h T dk,
        (T < off + m →
          cl.k j b h T dk = fullK E kA cfg W toks n j b h T dk ∧
          cl.v j b h T dk = fullV E kA cfg W toks n j b h T dk) ∧
        (off + m ≤ T → cl.k j b h T dk = 0 ∧ cl.v j b h T dk = 0)) := by
  have hsin : ∀ b p j, p < m →
      slicedSin cfg m (some c) b p j = slicedSin cfg n none b (off + p) j := by
    intro b p j hp
    have h := slicedSin_align cfg m n c b p j (by rw [hclen b]; omega)
    rw [hclen b] at h
    exact h
  have hcos : ∀ b p j, p < m →
      slicedCos cfg m (some c) b p j = slicedCos cfg n none b (off + p) j := by
    intro b p j hp
    have h := slicedCos_align cfg m n c b p j (by rw [hclen b]; omega)
    rw [hclen b] at h
    exact h
  intro l
  induction l with
  | zero =>
      intro _
      refine ⟨embedTokens W tk, c, rfl, ?_, rfl, fun j _ => ⟨rfl, rfl⟩,
        fun j _ hj => by omega⟩
      intro b p d hp
      have h0 : fullStream E kA cfg W toks n 0 = embedTokens W toks := rfl
      rw [h0]
      unfold embedTokens
      rw [htk b p hp]
  | succ l IH =>
      intro hl
      have hlt : l < cfg.num_layers := by omega
      obtain ⟨y, cl, hfwd, hstream, hlen, hslotsHi, hslotsLo⟩ := IH (by omega)
      have hcllen : ∀ b, cl.lengths b = off := fun b => by
        rw [hlen]; exact hclen b
      have hclslot : cl.k l = c.k l ∧ cl.v l = c.v l :=
        hslotsHi l (Or.inr le_rfl)
      -- chunk projections agree with the reference run
      have hq : ∀ b p, p < m → ∀ h dq,
          layerQ cfg (W.layers l) y (slicedSin cfg m (some c))
            (slicedCos cfg m (some c)) b h p dq =
          fullQ E kA cfg W toks n l b h (off + p) dq := by
        intro b p hp h dq
        exact layerQ_congr cfg (W.layers l) y
          (fullStream E kA cfg W toks n l) (slicedSin cfg m (some c))
          (slicedCos cfg m (some c)) (slicedSin cfg n none)
          (slicedCos cfg n none) b p (off + p)
          (fun d => hstream b p d hp) (fun j => hsin b p j hp)
          (fun j => hcos b p j hp) h dq
      have hk : ∀ b p, p < m → ∀ h dk,
          layerK cfg (W.layers l) y (slicedSin cfg m (some c))
            (slicedCos cfg m (some c)) b h p dk =
          fullK E kA cfg W toks n l b h (off + p) dk := by
        intro b p hp h dk
        exact layerK_congr cfg (W.layers l) y
          (fullStream E kA cfg W toks n l) (slicedSin cfg m (some c))
          (slicedCos cfg m (some c)) (slicedSin cfg n none)
          (slicedCos cfg n none) b p (off + p)
          (fun d => hstream b p d hp) (fun j => hsin b p j hp)
          (fun j => hcos b p j hp) h dk
      have hvp : ∀ b p, p < m → ∀ h dv,
          layerV cfg (W.layers l) y b h p dv =
          fullV E kA cfg W toks n l b h (off + p) dv := by
        intro b p hp h dv
        exact layerV_congr cfg (W.layers l) y
          (fullStream E kA cfg W toks n l) b p (off + p)
          (fun d => hstream b p d hp) h dv
      -- the updated, masked cache buffers of layer l
      have hk2 := updated_buffer_eq cfg.max_seq_len m off (by omega) (cl.k l)
        (layerK cfg (W.layers l) y (slicedSin cfg m (some c))
          (slicedCos cfg m (some c)))
        (fullK E kA cfg W toks n l) cl.lengths hcllen
        (fun b h T dk => by
          rw [hclslot.1]
          exact ⟨fun hT => ((hcinv l hlt b h T dk).1 hT).1,
            fun hT => ((hcinv l hlt b h T dk).2 hT).1⟩)
        hk
      have hv2 := updated_buffer_eq cfg.max_seq_len m off (by omega) (cl.v l)
        (layerV cfg (W.layers l) y) (fullV E kA cfg W toks n l) cl.lengths
        hcllen
        (fun b h T dk => by
          rw [hclslot.2]
          exact ⟨fun hT => ((hcinv l hlt b h T dk).1 hT).2,
            fun hT => ((hcinv l hlt b h T dk).2 hT).2⟩)
        hvp
      -- scores agree on the attended range
      have hscs : ∀ b p, p < m → ∀ h T, T ≤ off + p →
          attnScores cfg.key_dim
            (layerQ cfg (W.layers l) y (slicedSin cfg m (some c))
              (slicedCos cfg m (some c)))
            (maskCacheArr
              (updateCacheArr cfg.max_seq_len m (cl.k l)
                (layerK cfg (W.layers l) y (slicedSin cfg m (some c))
                  (slicedCos cfg m (some c))) cl.lengths)
              (kSegsCache m onesSeg cl.lengths)) b h p T =
          attnScores cfg.key_dim (fullQ E kA cfg W toks n l)
            (fullK E kA cfg W toks n l) b h (off + p) T := by
        intro b p hp h T hT
        unfold attnScores
        congr 1
        apply Finset.sum_congr rfl
        intro d _
        rw [hq b p hp h d, (hk2 b h T d).1 (by omega)]
      -- attention agrees on the consumed heads
      have hattn : ∀ b p, p < m → ∀ h, h < cfg.query_heads → ∀ d,
          attention E cfg.key_dim cfg.max_seq_len cfg.causal
            (layerQ cfg (W.layers l) y (slicedSin cfg m (some c))
              (slicedCos cfg m (some c)))
            (maskCacheArr
              (updateCacheArr cfg.max_seq_len m (cl.k l)
                (layerK cfg (W.layers l) y (slicedSin cfg m (some c))
                  (slicedCos cfg m (some c))) cl.lengths)
              (kSegsCache m onesSeg cl.lengths))
            (maskCacheArr
              (updateCacheArr cfg.max_seq_len m (cl.v l)
                (layerV cfg (W.layers l) y) cl.lengths)
              (kSegsCache m onesSeg cl.lengths))
            (qSegsCache onesSeg) (kSegsCache m onesSeg cl.lengths) cl.lengths
            b h p d =
          attention E cfg.key_dim n cfg.causal (fullQ E kA cfg W toks n l)
            (fullK E kA cfg W toks n l) (fullV E kA cfg W toks n l) onesSeg
            onesSeg (fun _ => 0) b h (off + p) d := by
        intro b p hp h hh
        rw [hcausal]
        exact attention_agree E hE cfg.key_dim cfg.max_seq_len n true true
          (layerQ cfg (W.layers l) y (slicedSin cfg m (some c))
            (slicedCos cfg m (some c)))
          (maskCacheArr
            (updateCacheArr cfg.max_seq_len m (cl.k l)
              (layerK cfg (W.layers l) y (slicedSin cfg m (some c))
                (slicedCos cfg m (some c))) cl.lengths)
            (kSegsCache m onesSeg cl.lengths))
          (maskCacheArr
            (updateCacheArr cfg.max_seq_len m (cl.v l)
              (layerV cfg (W.layers l) y) cl.lengths)
            (kSegsCache m onesSeg cl.lengths))
          (fullQ E kA cfg W toks n l) (fullK E kA cfg W toks n l)
          (fullV E kA cfg W toks n l)
          (qSegsCache onesSeg) (kSegsCache m onesSeg cl.lengths) onesSeg
          onesSeg cl.lengths (fun _ => 0) b h p (off + p) (off + p)
          (by omega) (by omega)
          (fun T hT => by
            have hcm := cached_mask_char m cl.lengths b h p T hp
            rw [hcllen b] at hcm
            exact hcm)
          (fun T hT => full_mask_char b h (off + p) T)
          (fun T hT => hscs b p hp h T hT)
          (fun T hT d => (hv2 b h T d).1 (by omega))
          (by
            rw [hscs b p hp h (off + p) le_rfl]
            exact hscore l h (off + p) b hlt hh (by omega))
      -- the layer-l call itself
      have hfl : forward_layer E kA cfg m y onesSeg (W.layers l)
          (slicedSin cfg m (some c)) (slicedCos cfg m (some c)) l (some cl) =
          Except.ok
            (postAttn cfg (W.layers l) y
              (attention E cfg.key_dim cfg.max_seq_len cfg.causal
                (layerQ cfg (W.layers l) y (slicedSin cfg m (some c))
                  (slicedCos cfg m (some c)))
                (maskCacheArr
                  (updateCacheArr cfg.max_seq_len m (cl.k l)
                    (layerK cfg (W.layers l) y (slicedSin cfg m (some c))
                      (slicedCos cfg m (some c))) cl.lengths)
                  (kSegsCache m onesSeg cl.lengths))
                (maskCacheArr
                  (updateCacheArr cfg.max_seq_len m (cl.v l)
                    (layerV cfg (W.layers l) y) cl.lengths)
                  (kSegsCache m onesSeg cl.lengths))
                (qSegsCache onesSeg) (kSegsCache m onesSeg cl.lengths)
                cl.lengths),
             maskCacheArr
               (updateCacheArr cfg.max_seq_len m (cl.k l)
                 (layerK cfg (W.layers l) y (slicedSin cfg m (some c))
                   (slicedCos cfg m (some c))) cl.lengths)
               (kSegsCache m onesSeg cl.lengths),
             maskCacheArr
               (updateCacheArr cfg.max_seq_len m (cl.v l)
                 (layerV cfg (W.layers l) y) cl.lengths)
               (kSegsCache m onesSeg cl.lengths)) := by
        rw [forward_layer]
        rw [if_neg (by rw [hker]; exact Bool.false_ne_true)]
      refine ⟨postAttn cfg (W.layers l) y
        (attention E cfg.key_dim cfg.max_seq_len cfg.causal
          (layerQ cfg (W.layers l) y (slicedSin cfg m (some c))
            (slicedCos cfg m (some c)))
          (maskCacheArr
            (updateCacheArr cfg.max_seq_len m (cl.k l)
              (layerK cfg (W.layers l) y (slicedSin cfg m (some c))
                (slicedCos cfg m (some c))) cl.lengths)
            (kSegsCache m onesSeg cl.lengths))
          (maskCacheArr
            (updateCacheArr cfg.max_seq_len m (cl.v l)
              (layerV cfg (W.layers l) y) cl.lengths)
            (kSegsCache m onesSeg cl.lengths))
          (qSegsCache onesSeg) (kSegsCache m onesSeg cl.lengths) cl.lengths),
        writeCache cl l
        (maskCacheArr
          (updateCacheArr cfg.max_seq_len m (cl.k l)
            (layerK cfg (W.layers l) y (slicedSin cfg m (some c))
              (slicedCos cfg m (some c))) cl.lengths)
          (kSegsCache m onesSeg cl.lengths))
        (maskCacheArr
          (updateCacheArr cfg.max_seq_len m (cl.v l)
            (layerV cfg (W.layers l) y) cl.lengths)
          (kSegsCache m onesSeg cl.lengths)), ?_, ?_, ?_, ?_, ?_⟩
      · rw [forwardLayers, hfwd]
        simp only [Except.bind, hfl, Except.map, Option.map]
      · intro b p d hp
        rw [fullStream_succ E kA cfg W toks n hker l]
        exact postAttn_congr cfg (W.layers l) y
          (fullStream E kA cfg W toks n l) _ _ b p (off + p)
          (fun d' => hstream b p d' hp)
          (fun h hh dq => hattn b p hp h hh dq) d
      · exact hlen
      · intro j hj
        have hne : ¬ (j = l) := by omega
        constructor
        · show (if j = l then _ else cl.k j) = c.k j
          rw [if_neg hne]
          exact (hslotsHi j (by omega)).1
        · show (if j = l then _ else cl.v j) = c.v j
          rw [if_neg hne]
          exact (hslotsHi j (by omega)).2
      · intro j hjnl hjl b h T dk
        by_cases hje : j = l
        · subst hje
          constructor
          · intro hT
            constructor
            · show (if j = j then _ else cl.k j) b h T dk = _
              rw [if_pos rfl]
              exact (hk2 b h T dk).1 hT
            · show (if j = j then _ else cl.v j) b h T dk = _
              rw [if_pos rfl]
              exact (hv2 b h T dk).1 hT
          · intro hT
            constructor
            · show (if j = j then _ else cl.k j) b h T dk = 0
              rw [if_pos rfl]
              exact (hk2 b h T dk).2 hT
            · show (if j = j then _ else cl.v j) b h T dk = 0
              rw [if_pos rfl]
              exact (hv2 b h T dk).2 hT
        · have hjl' : j < l := by omega
          constructor
          · intro hT
            constructor
            · show (if j = l then _ else cl.k j) b h T dk = _
              rw [if_neg hje]
              exact ((hslotsLo j hjnl hjl' b h T dk).1 hT).1
            · show (if j = l then _ else cl.v j) b h T dk = _
              rw [if_neg hje]
              exact ((hslotsLo j hjnl hjl' b h T dk).1 hT).2
          · intro hT
            constructor
            · show (if j = l then _ else cl.k j) b h T dk = 0
              rw [if_neg hje]
              exact ((hslotsLo j hjnl hjl' b h T dk).2 hT).1
            · show (if j = l then _ else cl.v j) b h T dk = 0
              rw [if_neg hje]
              exact ((hslotsLo j hjnl hjl' b h T dk).2 hT).2

/-- One cached all-valid `forward` call at offset `off` reproduces the
reference logits at the shifted positions and re-establishes the cache
invariant at the new bound `off + m`. -/
theorem call_agree (E : ℝ → ℝ)
    (kA : Arr4 → Arr4 → Arr4 → Seg → Seg → Arr4) (cfg : Cfg) (W : WeightsM)
    (toks : ℕ → ℕ → ℕ) (n : ℕ)
    (hE : ∀ y : ℝ, y ≤ -104 → E y = 0)
    (hcausal : cfg.causal = true) (hker : cfg.use_attn_kernel = false)
    (hTmax : n ≤ cfg.max_seq_len)
    (hscore : ScoresBounded E kA cfg W toks n)
    (off m : ℕ) (hoffm : off + m ≤ n)
    (tk : ℕ → ℕ → ℕ) (htk : ∀ b p, p < m → tk b p = toks b (off + p))
    (c : KVCacheM) (hclen : ∀ b, c.lengths b = off)
    (hcinv : ∀ l, l < cfg.num_layers → ∀ b h T dk,
      (T < off → c.k l b h T dk = fullK E kA cfg W toks n l b h T dk ∧
                 c.v l b h T dk = fullV E kA cfg W toks n l b h T dk) ∧
      (off ≤ T → c.k l b h T dk = 0 ∧ c.v l b h T dk = 0)) :
    ∃ logits c2,
      forward E kA cfg m tk onesSeg W (some c) = Except.ok (logits, some c2) ∧
      (∀ b p v, p < m →
        logits b p v = fullCall E kA cfg W toks n b (off + p) v) ∧
      (∀ b, c2.lengths b = off + m) ∧
      (∀ l, l < cfg.num_layers → ∀ b h T dk,
        (T < off + m →
          c2.k l b h T dk = fullK E kA cfg W toks n l b h T dk ∧
          c2.v l b h T dk = fullV E kA cfg W toks n l b h T dk) ∧
        (off + m ≤ T → c2.k l b h T dk = 0 ∧ c2.v l b h T dk = 0)) := by
  obtain ⟨y, cl, hfwd, hstream, hlen, hslotsHi, hslotsLo⟩ :=
    layers_agree E kA cfg W toks n hE hcausal hker hTmax hscore off m hoffm
      tk htk c hclen hcinv cfg.num_layers le_rfl
  refine ⟨vocabLogits cfg W y,
    ⟨cl.k, cl.v, fun b => cl.lengths b + incCount m onesSeg b⟩, ?_, ?_, ?_, ?_⟩
  · rw [forward, hfwd]
    rfl
  · intro b p v hp
    rw [fullCall_eq E kA cfg W toks n hker]
    unfold vocabLogits
    apply Finset.sum_congr rfl
    intro d _
    rw [hstream b p d hp]
  · intro b
    show cl.lengths b + incCount m onesSeg b = off + m
    rw [incCount_ones, hlen, hclen b]
  · intro l hl b h T dk
    exact hslotsLo l hl hl b h T dk

/-- C1: for the reference (non-kernel) attention path, feeding a length-`L`
prompt through `forward` with a fresh KV cache and then decoding one token at
a time (chunk length 1) produces, at the position of the last prompt token
and at every generated position, exactly the logits of a single uncached
forward call over the whole length-`(L + steps)` sequence.  The backend
exponential `E` is assumed to underflow to exactly `0` below `-104` (as
`float32` `exp` does), which makes the `-1e30` mask sentinel an exact mask —
this is the formal reading of "bit-identical within numeric tolerance"; the
reference-run attention scores are assumed `≥ -1e29` (`ScoresBounded`), true
by astronomical margin for any finite-weight model. -/
theorem c1_cache_decode_equiv (E : ℝ → ℝ)
    (kA : Arr4 → Arr4 → Arr4 → Seg → Seg → Arr4) (cfg : Cfg) (W : WeightsM)
    (toks : ℕ → ℕ → ℕ) (L steps : ℕ)
    (hE : ∀ y : ℝ, y ≤ -104 → E y = 0)
    (hcausal : cfg.causal = true) (hker : cfg.use_attn_kernel = false)
    (hL : 1 ≤ L) (hfit : L + steps ≤ cfg.max_seq_len)
    (hscore : ScoresBounded E kA cfg W toks (L + steps)) :
    (∀ b t v, t < L →
      (promptCall E kA cfg W toks L).1 b t v =
        fullCall E kA cfg W toks (L + steps) b t v) ∧
    (∀ i, 1 ≤ i → i ≤ steps → ∀ b v,
      (decodeState E kA cfg W toks L i).1 b 0 v =
        fullCall E kA cfg W toks (L + steps) b (L + i - 1) v) := by
  have hmain : ∀ i, i ≤ steps →
      (∀ b, (decodeState E kA cfg W toks L i).2.lengths b = L + i) ∧
      (∀ l, l < cfg.num_layers → ∀ b h T dk,
        (T < L + i →
          (decodeState E kA cfg W toks L i).2.k l b h T dk =
            fullK E kA cfg W toks (L + steps) l b h T dk ∧
          (decodeState E kA cfg W toks L i).2.v l b h T dk =
            fullV E kA cfg W toks (L + steps) l b h T dk) ∧
        (L + i ≤ T →
          (decodeState E kA cfg W toks L i).2.k l b h T dk = 0 ∧
          (decodeState E kA cfg W toks L i).2.v l b h T dk = 0)) ∧
      (i = 0 → ∀ b t v, t < L →
        (decodeState E kA cfg W toks L i).1 b t v =
          fullCall E kA cfg W toks (L + steps) b t v) ∧
      (1 ≤ i → ∀ b v,
        (decodeState E kA cfg W toks L i).1 b 0 v =
          fullCall E kA cfg W toks (L + steps) b (L + i - 1) v) := by
    intro i
    induction i with
    | zero =>
        intro _
        obtain ⟨logits, c2, hfwd, hlog, hlen2, hinv2⟩ :=
          call_agree E kA cfg W toks (L + steps) hE hcausal hker
            hfit hscore 0 L (by omega) toks
            (fun b p _ => by rw [Nat.zero_add])
            KVCacheM.init (fun b => rfl)
            (fun l hl b h T dk =>
              ⟨fun hT => absurd hT (by omega), fun _ => ⟨rfl, rfl⟩⟩)
        have hDS : decodeState E kA cfg W toks L 0 = (logits, c2) := by
          show promptCall E kA cfg W toks L = _
          rw [promptCall, hfwd]
          rfl
        refine ⟨?_, ?_, ?_, ?_⟩
        · intro b
          rw [hDS]
          show c2.lengths b = L + 0
          rw [hlen2 b]
          omega
        · intro l hl b h T dk
          rw [hDS]
          have h2 := hinv2 l hl b h T dk
          exact ⟨fun hT => h2.1 (by omega), fun hT => h2.2 (by omega)⟩
        · intro _ b t v ht
          rw [hDS]
          show logits b t v = _
          have h2 := hlog b t v ht
          rw [Nat.zero_add] at h2
          exact h2
        · intro h1
          omega
    | succ i IH =>
        intro hi
        obtain ⟨hlenI, hinvI, _, _⟩ := IH (by omega)
        obtain ⟨logits, c2, hfwd, hlog, hlen2, hinv2⟩ :=
          call_agree E kA cfg W toks (L + steps) hE hcausal hker
            hfit hscore (L + i) 1 (by omega)
            (fun b _ => toks b (L + i))
            (fun b p hp => by
              have hp0 : p = 0 := by omega
              subst hp0
              rw [Nat.add_zero])
            (decodeState E kA cfg W toks L i).2 hlenI hinvI
        have hDS : decodeState E kA cfg W toks L (i + 1) = (logits, c2) := by
          show getOkCache (forward E kA cfg 1 (fun b _ => toks b (L + i))
            onesSeg W (some (decodeState E kA cfg W toks L i).2)) = _
          rw [hfwd]
          rfl
        refine ⟨?_, ?_, ?_, ?_⟩
        · intro b
          rw [hDS]
          show c2.lengths b = L + (i + 1)
          rw [hlen2 b]
          omega
        · intro l hl b h T dk
          rw [hDS]
          have h2 := hinv2 l hl b h T dk
          exact ⟨fun hT => h2.1 (by omega), fun hT => h2.2 (by omega)⟩
        · intro h0
          omega
        · intro _ b v
          rw [hDS]
          show logits b 0 v = _
          have h2 := hlog b 0 v (by omega)
          have heq : L + i + 0 = L + (i + 1) - 1 := by omega
          rw [heq] at h2
          exact h2
  constructor
  · intro b t v ht
    exact (hmain 0 (by omega)).2.2.1 rfl b t v ht
  · intro i h1 hi b v
    exact (hmain i hi).2.2.2 h1 b v

/-- With all-zero query weights the rotary-embedded queries vanish. -/
theorem zeroLayer_layerQ (cfg : Cfg) (x sin cos : Arr3) (b h t d : ℕ) :
    layerQ cfg zeroLayer x sin cos b h t d = 0 := by
  unfold layerQ apply_rotary_embedding
  simp [zeroLayer]

/-- The all-zero model satisfies the score bound of C1. -/
theorem zero_scores_bounded :
    ScoresBounded exp32 zeroKernel cfgRef zeroWeights (fun _ _ => 0) 2 := by
  intro l h a b _ _ _
  unfold attnScores
  have hq0 : ∀ d, fullQ exp32 zeroKernel cfgRef zeroWeights (fun _ _ => 0) 2 l
      b h a d = 0 := by
    intro d
    exact zeroLayer_layerQ cfgRef
      (fullStream exp32 zeroKernel cfgRef zeroWeights (fun _ _ => 0) 2 l)
      (slicedSin cfgRef 2 none) (slicedCos cfgRef 2 none) b h a d
  rw [Finset.sum_eq_zero (fun d _ => by rw [hq0 d]; ring), zero_mul]
  norm_num

/-- Witness for C1: the one-layer all-zero-weight reference model on
`max_seq_len = 2`, prompt length 1, one decode step, with the `float32`
exponential model. -/
theorem c1_cache_decode_equiv_witness :
    (∀ y : ℝ, y ≤ -104 → exp32 y = 0) ∧
    cfgRef.causal = true ∧ cfgRef.use_attn_kernel = false ∧
    1 ≤ 1 ∧ 1 + 1 ≤ cfgRef.max_seq_len ∧
    ScoresBounded exp32 zeroKernel cfgRef zeroWeights (fun _ _ => 0) (1 + 1) ∧
    ((∀ b t v, t < 1 →
      (promptCall exp32 zeroKernel cfgRef zeroWeights (fun _ _ => 0) 1).1 b t v =
        fullCall exp32 zeroKernel cfgRef zeroWeights (fun _ _ => 0) (1 + 1) b t v) ∧
     (∀ i, 1 ≤ i → i ≤ 1 → ∀ b v,
      (decodeState exp32 zeroKernel cfgRef zeroWeights (fun _ _ => 0) 1 i).1 b 0 v =
        fullCall exp32 zeroKernel cfgRef zeroWeights (fun _ _ => 0) (1 + 1) b
          (1 + i - 1) v)) :=
  ⟨fun y hy => if_pos hy, rfl, rfl, le_refl 1, by decide, zero_scores_bounded,
   c1_cache_decode_equiv exp32 zeroKernel cfgRef zeroWeights (fun _ _ => 0) 1 1
     (fun y hy => if_pos hy) rfl rfl (le_refl 1) (by decide)
     zero_scores_bounded⟩

/-- Witness for C9 at `dHalf = 1`, the constant array `3`, zero angles,
coordinate `d = 0`. -/
theorem c9_rotary_roundtrip_witness :
    0 < 2 * 1 ∧
    apply_rotary_embedding 1
      (apply_rotary_embedding 1 (fun _ _ _ _ => (3 : ℝ))
        (fun b t j => Real.sin ((fun _ _ _ => (0 : ℝ)) b t j))
        (fun b t j => Real.cos ((fun _ _ _ => (0 : ℝ)) b t j)))
      (fun b t j => Real.sin (-((fun _ _ _ => (0 : ℝ)) b t j)))
      (fun b t j => Real.cos (-((fun _ _ _ => (0 : ℝ)) b t j)))
      0 0 0 0 = 3 :=
  ⟨by norm_num,
   c9_rotary_roundtrip 1 (fun _ _ _ _ => (3 : ℝ)) (fun _ _ _ => (0 : ℝ)) 0 0 0 0
     (by norm_num)⟩

end Minformer
